import Mathlib

/-!
# dtkdevice: `src/lsdevice/dmemorydevice.cpp`

A shallow embedding of the memory-device inventory (`DMemoryDevicePrivate`,
`DMemoryDevice`) together with theorems about it.

* Qt strings (`QString`) and `std::string` are Lean `String`s, and `QString::fromStdString` is
  the identity; the null `QString()` and the empty string are the same value `""` (they compare
  equal in Qt).
* Values of type `unsigned long long` are `Nat`s; `std::to_string` and `QString::number` are the
  decimal representation `toString`.
* An `int` index is an `Int`.
* `QList<T>` is `List T`; `operator[]` outside `0 <= i < size()` is an assertion failure in Qt
  and is modelled by `none`.
* `QMap<QString, QString>` is a key-sorted association list with unique keys.
* The locals of `addMemInfo` have no initialiser; what they hold at entry is a parameter of the
  model. The result of `fopen` and the characters of the stream are parameters as well.
* Every `sscanf` call of `addMemInfo` is given a counter by value, so a converted number is
  stored at the address that the content of the counter designates. `scanField` and
  `addMemInfo` describe the run in which every such store lands outside the counters;
  `scanFieldAt` and `addMemInfoAt` take a memory map `mem` that tells for each address whether a
  store there overwrites a counter, lands outside the counters or faults
  (`addMemInfoAt_elsewhere` relates the two).
-/

namespace Dtk

/-! ## The hardware tree (interface of `hw.h`) -/

/-- Modelled from the spec: the enumeration `hw::hwClass` is declared in `hw.h`, which is not
among the sources. Only the two tags the file names are distinguished: `hw::sys_tem` (the class of
the root made by the constructor) and `hw::ddr` (the memory class); every other tag is
`other t`. -/
inductive hwClass where
  | sys_tem : hwClass
  | ddr : hwClass
  | other (tag : Nat) : hwClass
  deriving DecidableEq, Repr

/-- Modelled from the spec: the class `hwNode` is declared in `hw.h`, which is not among the
sources. A node carries exactly what `addDeviceInfo` reads through its getters: class, bus info,
sub-class name, description, id, vendor, product, size, serial, the named configuration lookup and
the children in child-index order. -/
inductive hwNode where
  | mk (cls : hwClass) (businfo subClassName description id vendor product : String)
      (size : Nat) (serial : String) (config : String → String) (children : List hwNode) : hwNode

namespace hwNode

def getClass : hwNode → hwClass
  | mk c _ _ _ _ _ _ _ _ _ _ => c

def getBusInfo : hwNode → String
  | mk _ b _ _ _ _ _ _ _ _ _ => b

def getsubClassName : hwNode → String
  | mk _ _ s _ _ _ _ _ _ _ _ => s

def getDescription : hwNode → String
  | mk _ _ _ d _ _ _ _ _ _ _ => d

def getId : hwNode → String
  | mk _ _ _ _ i _ _ _ _ _ _ => i

def getVendor : hwNode → String
  | mk _ _ _ _ _ v _ _ _ _ _ => v

def getProduct : hwNode → String
  | mk _ _ _ _ _ _ p _ _ _ _ => p

def getSize : hwNode → Nat
  | mk _ _ _ _ _ _ _ n _ _ _ => n

def getSerial : hwNode → String
  | mk _ _ _ _ _ _ _ _ s _ _ => s

def getConfig : hwNode → String → String
  | mk _ _ _ _ _ _ _ _ _ c _ => c

end hwNode

/-! ## `QMap<QString, QString>` -/

/-- A `QMap<QString, QString>`: the entries in increasing key order, one per key. Keys are
compared character by character (`QString::operator<`). -/
structure QMap where
  entries : List (String × String)

namespace QMap

/-- The map after `clear()`. -/
def empty : QMap := ⟨[]⟩

def insertEntries (k v : String) : List (String × String) → List (String × String)
  | [] => [(k, v)]
  | (k', v') :: rest =>
    if k.toList < k'.toList then (k, v) :: (k', v') :: rest
    else if k = k' then (k, v) :: rest
    else (k', v') :: insertEntries k v rest

/-- The calls `m.insert(k, v)` and `m[k] = v`: the value of an existing key is replaced. -/
def insert (m : QMap) (k v : String) : QMap := ⟨insertEntries k v m.entries⟩

def valueEntries (k : String) : List (String × String) → String
  | [] => ""
  | (k', v') :: rest => if k' = k then v' else valueEntries k rest

/-- The call `m.value(k)`: the value stored under `k`, a default-constructed (empty) string otherwise. -/
def value (m : QMap) (k : String) : String := valueEntries k m.entries

/-- The call `m.keys()`, in increasing order. -/
def keys (m : QMap) : List String := m.entries.map Prod.fst

/-- The call `m.contains(k)`. -/
def contains (m : QMap) (k : String) : Bool := decide (k ∈ m.keys)

end QMap

/-! ## Device records (interface of `dlsdevice.h`) -/

/-- Modelled from the spec: the enumeration of device categories is declared in `dlsdevice.h`,
which is not among the sources; `DtkMemory` is the only tag this file uses. -/
inductive DevClass where
  | DtkUnknown : DevClass
  | DtkMemory : DevClass
  deriving DecidableEq, Repr

/-- Modelled from the spec: `DlsDevice::DDeviceInfo` is declared in `dlsdevice.h`, which is not
among the sources; these are the members `addDeviceInfo` writes. -/
structure DDeviceInfo where
  devClass : DevClass
  deviceBaseAttrisLst : List String
  deviceInfoLstMap : QMap
  subClassName : String
  vendorName : String
  productName : String

/-- The record `entry` that one call of `addDeviceInfo` builds for `node` (lines 220-256),
statement by statement. -/
def buildEntry (node : hwNode) : DDeviceInfo :=
  -- struct DlsDevice::DDeviceInfo entry; entry.deviceInfoLstMap.clear(); entry.devClass = DtkMemory
  let lst0 : List String := []
  let map0 : QMap := QMap.empty
  -- if (node.getBusInfo() != "") { append "SysFs_PATH"; map["SysFs_PATH"] = busInfo }
  let lst1 := if node.getBusInfo ≠ "" then lst0 ++ ["SysFs_PATH"] else lst0
  let map1 := if node.getBusInfo ≠ "" then map0.insert "SysFs_PATH" node.getBusInfo else map0
  let lst2 := lst1 ++ ["Description"]
  let map2 := map1.insert "Description" node.getDescription
  let lst3 := lst2 ++ ["sysID"]
  let map3 := map2.insert "sysID" node.getId
  let lst4 := lst3 ++ ["Vendor"]
  let map4 := map3.insert "Vendor" node.getVendor
  let lst5 := lst4 ++ ["Name"]
  let map5 := map4.insert "Name" node.getProduct
  -- if (node.getSize() > 0) { append "size"; insert("size", to_string(size)) }
  let lst6 := if node.getSize > 0 then lst5 ++ ["size"] else lst5
  let map6 := if node.getSize > 0 then map5.insert "size" (toString node.getSize) else map5
  let map7 := map6.insert "serial" node.getSerial
  let map8 := map7.insert "type" node.getDescription
  let map9 := map8.insert "MemAvailable" (node.getConfig "MemAvailable")
  { devClass := DevClass.DtkMemory
    deviceBaseAttrisLst := lst6
    deviceInfoLstMap := map9
    subClassName := node.getsubClassName
    vendorName := node.getVendor
    productName := node.getProduct }

mutual
/-- Method `DMemoryDevicePrivate::addDeviceInfo(node, infoLst)`: the list `infoLst` after the call. The
record is built for every node, appended only when the class is `hw::ddr`, and the children are
then visited in index order. -/
def addDeviceInfo : hwNode → List DDeviceInfo → List DDeviceInfo
  | hwNode.mk cls b s d i v p n sr cf children, infoLst =>
    let node := hwNode.mk cls b s d i v p n sr cf children
    let entry := buildEntry node
    let infoLst1 := if hwClass.ddr = node.getClass then infoLst ++ [entry] else infoLst
    addDeviceInfoChildren children infoLst1
/-- The loop `for (int i = 0; i < node.countChildren(); i++) addDeviceInfo(*node.getChild(i),
infoLst)` over the remaining children. -/
def addDeviceInfoChildren : List hwNode → List DDeviceInfo → List DDeviceInfo
  | [], infoLst => infoLst
  | c :: cs, infoLst => addDeviceInfoChildren cs (addDeviceInfo c infoLst)
end

/-! ## The counter file (`addMemInfo`) -/

/-- The fourteen local counters of `addMemInfo` (lines 85-99). They are declared without an
initialiser. -/
structure MemLocals where
  mem_total_kb : Nat
  mem_free_kb : Nat
  mem_avail_kb : Nat
  buffers_kb : Nat
  cached_kb : Nat
  active_kb : Nat
  inactive_kb : Nat
  swap_total_kb : Nat
  swap_free_kb : Nat
  swap_cached_kb : Nat
  shmem_kb : Nat
  slab_kb : Nat
  dirty_kb : Nat
  mapped_kb : Nat
  deriving DecidableEq, Repr

/-- The character at the front of a C string; past the end it is the terminating NUL. -/
def cHead (s : List Char) : Char := s.headD (Char.ofNat 0)

/-- The test `strncmp(a, b, n) == 0`: the strings agree on their first `n` characters, or up to and
including a common terminating NUL. -/
def strncmpEq : List Char → List Char → Nat → Bool
  | _, _, 0 => true
  | a, b, n + 1 =>
    if cHead a ≠ cHead b then false
    else if cHead a = Char.ofNat 0 then true
    else strncmpEq a.tail b.tail n

/-- The C string held in a buffer: the characters before the first NUL. -/
def cstr (s : List Char) : List Char := s.takeWhile (fun c => c ≠ Char.ofNat 0)

/-- The predicate `isspace` in the C locale. -/
def isspace (c : Char) : Bool :=
  c = ' ' || c = '\t' || c = '\n' || c = Char.ofNat 11 || c = Char.ofNat 12 || c = '\r'

/-- The value of a run of decimal digits, most significant first. -/
def digitsValue (ds : List Char) : Nat :=
  ds.foldl (fun acc c => 10 * acc + (c.toNat - '0'.toNat)) 0

/-- The `unsigned long long` that `strtoull` gives for a digit run with an optional minus sign:
`ULLONG_MAX` on overflow, the negation modulo `2^64` after a minus sign. -/
def strtoull (neg : Bool) (ds : List Char) : Nat :=
  if digitsValue ds ≥ 2 ^ 64 then 2 ^ 64 - 1
  else if neg then (2 ^ 64 - digitsValue ds) % 2 ^ 64
  else digitsValue ds

/-- The matching done by `sscanf(s, "%llu", ...)`: the return value (`1` after a conversion, `0`
on a matching failure, `EOF = -1` when the input ends before any character of the number) and the
converted value. White space is skipped, then an optional sign and a non-empty run of decimal
digits are read. The caller only tests the return value against `1`. -/
def sscanf_llu (s : List Char) : Int × Option Nat :=
  match (cstr s).dropWhile isspace with
  | [] => (-1, none)
  | c :: rest =>
    let neg := decide (c = '-')
    let body := if c = '-' ∨ c = '+' then rest else c :: rest
    let ds := body.takeWhile Char.isDigit
    if ds = [] then (0, none) else (1, some (strtoull neg ds))

/-- The state of the scan loop of `addMemInfo`: the fourteen locals, the local `nr`, the messages
passed to `print_errno` so far, and the stores made by `sscanf` so far, each as the pair of the
address operand and the value stored. -/
structure ScanState where
  vars : MemLocals
  nr : Int
  warnings : List String
  stores : List (Nat × Nat)
  deriving DecidableEq, Repr

/-- One branch of the chain, for a line that starts with a label of `skip` characters:
`nr = sscanf(line.data() + skip, "%llu", var); if (nr != 1) print_errno(errno, "parse
/proc/meminfo -> name failed")`.

The third argument of `sscanf` in the source is the counter itself, not its address (`"%llu",
mem_total_kb`): the call receives the current content `var` of the counter by value, and a
successful conversion is stored at the address that this content designates. That store has no
defined effect in C; it is recorded as `(var, value)` in `stores`, and the counter is not
assigned. This definition is the run in which the store lands outside the fourteen counters;
`scanFieldAt` gives the store its effect on them. -/
def scanField (st : ScanState) (line : List Char) (skip : Nat) (var : Nat) (name : String) :
    ScanState :=
  let r := sscanf_llu (line.drop skip)
  let st1 : ScanState :=
    { st with
      nr := r.1
      stores := match r.2 with
        | some v => st.stores ++ [(var, v)]
        | none => st.stores }
  if r.1 ≠ 1 then
    { st1 with warnings := st1.warnings ++ ["parse /proc/meminfo -> " ++ name ++ " failed"] }
  else st1

/-- The body of the `while (fgets(...))` loop (lines 111-194) on one line. -/
def processLine (st : ScanState) (line : List Char) : ScanState :=
  if strncmpEq line "MemTotal:".toList 9 then
    scanField st line 9 st.vars.mem_total_kb "MemTotal"
  else if strncmpEq line "MemFree:".toList 8 then
    scanField st line 8 st.vars.mem_free_kb "MemFree"
  else if strncmpEq line "MemAvailable:".toList 13 then
    scanField st line 13 st.vars.mem_avail_kb "MemAvailable"
  else if strncmpEq line "Buffers:".toList 8 then
    scanField st line 8 st.vars.buffers_kb "Buffers"
  else if strncmpEq line "Cached:".toList 7 then
    scanField st line 7 st.vars.cached_kb "Cached"
  else if strncmpEq line "SwapCached:".toList 11 then
    scanField st line 11 st.vars.swap_cached_kb "SwapCached"
  else if strncmpEq line "Active:".toList 7 then
    scanField st line 7 st.vars.active_kb "Active"
  else if strncmpEq line "Inactive:".toList 9 then
    scanField st line 9 st.vars.inactive_kb "Inactive"
  else if strncmpEq line "SwapTotal:".toList 10 then
    scanField st line 10 st.vars.swap_total_kb "SwapTotal"
  else if strncmpEq line "SwapFree:".toList 9 then
    scanField st line 9 st.vars.swap_free_kb "SwapFree"
  else if strncmpEq line "Dirty:".toList 6 then
    scanField st line 6 st.vars.dirty_kb "Dirty"
  else if strncmpEq line "Shmem:".toList 6 then
    scanField st line 6 st.vars.shmem_kb "Shmem"
  else if strncmpEq line "Slab:".toList 5 then
    scanField st line 5 st.vars.slab_kb "Slab"
  else if strncmpEq line "Mapped:".toList 7 then
    scanField st line 7 st.vars.mapped_kb "Mapped"
  else st

/-- The buffer length `BUFLEN`. -/
def BUFLEN : Nat := 512

/-- The characters one `fgets` call takes from the stream with room for `room` characters, and
what is left of the stream: reading stops after a newline, when the room is used up, or when
the stream is at its end. -/
def fgetsTake : Nat → List Char → List Char × List Char
  | 0, s => ([], s)
  | _ + 1, [] => ([], [])
  | room + 1, c :: s =>
    if c = '\n' then ([c], s)
    else ((fgetsTake room s).1.cons c, (fgetsTake room s).2)

/-- The call `fgets(buf, n, fp)`: `none` (a null pointer) at the end of the stream, else the line read,
of at most `n - 1` characters, and the rest of the stream. -/
def fgets (n : Nat) (s : List Char) : Option (List Char × List Char) :=
  if s = [] then none else some (fgetsTake (n - 1) s)

/-- The loop `while (fgets(line.data(), BUFLEN, fp)) { ... }` with a bound on the number of
iterations. -/
def whileFgetsBounded : Nat → ScanState → List Char → ScanState
  | 0, st, _ => st
  | fuel + 1, st, s =>
    match fgets BUFLEN s with
    | none => st
    | some (line, rest) => whileFgetsBounded fuel (processLine st line) rest

/-- The loop `while (fgets(line.data(), BUFLEN, fp)) { ... }`. Every iteration takes at least one
character from the stream, so the length of the stream bounds the number of iterations
(`whileFgets_unfold` shows that the bound is never what ends the loop). -/
def whileFgets (st : ScanState) (s : List Char) : ScanState :=
  whileFgetsBounded s.length st s

/-- The lines that successive `fgets` calls return on a stream, with a bound on their number. -/
def fgetsLinesBounded : Nat → List Char → List (List Char)
  | 0, _ => []
  | fuel + 1, s =>
    match fgets BUFLEN s with
    | none => []
    | some (line, rest) => line :: fgetsLinesBounded fuel rest

/-- The lines of a stream as the scan loop sees them: what the successive calls
`fgets(line.data(), BUFLEN, fp)` return until the stream is at its end. -/
def fgetsLines (s : List Char) : List (List Char) := fgetsLinesBounded s.length s

/-- The fourteen labels that the scan loop compares a line with. -/
def labels : List String :=
  ["MemTotal:", "MemFree:", "MemAvailable:", "Buffers:", "Cached:", "SwapCached:", "Active:",
    "Inactive:", "SwapTotal:", "SwapFree:", "Dirty:", "Shmem:", "Slab:", "Mapped:"]

/-- The text begins, after white space, with an unsigned decimal integer, that is with a
decimal digit. -/
def beginsWithUnsigned (s : List Char) : Bool :=
  match s.dropWhile isspace with
  | [] => false
  | c :: _ => c.isDigit

/-- A malformed line: it starts with one of the fourteen labels and what follows the label does
not begin, after white space, with an unsigned decimal integer. -/
def MalformedLine (b : List Char) : Prop :=
  ∃ lab ∈ labels, lab.toList <+: b ∧ beginsWithUnsigned (b.drop lab.length) = false

/-- A line starts with a given label. -/
def StartsWith (lab : String) (line : List Char) : Prop := lab.toList <+: line

instance (lab : String) (line : List Char) : Decidable (StartsWith lab line) := by
  unfold StartsWith; infer_instance

/-- The stream behind `/proc/meminfo` once opened: its characters, and whether reading it ends
with an error (`ferror`) instead of the end of the file. -/
structure ProcFile where
  content : List Char
  readError : Bool
  deriving DecidableEq, Repr

/-- The scan of `addMemInfo` (lines 106-201). `uninit` is the content of the fourteen locals at
entry; `fp` is the result of `fopen`, `none` when it fails (the scan is then skipped). -/
def addMemInfoScan (uninit : MemLocals) (fp : Option ProcFile) : ScanState :=
  let st0 : ScanState := { vars := uninit, nr := 0, warnings := [], stores := [] }
  match fp with
  | none => st0
  | some f =>
    let st1 := whileFgets st0 f.content
    if f.readError then
      { st1 with warnings := st1.warnings ++ ["read /proc/meminfo failed"] }
    else st1

/-- The twelve string members that `addMemInfo` assigns (lines 203-214). -/
structure MemInfo where
  m_swapSize : String
  m_available : String
  m_buffers : String
  m_cached : String
  m_active : String
  m_inactive : String
  m_sharedSize : String
  m_swapFree : String
  m_swapCached : String
  m_slab : String
  m_dirty : String
  m_mapped : String
  deriving DecidableEq, Repr

/-- The assignments `m_x = QString::number(x_kb)` at the end of `addMemInfo`. -/
def numberAll (v : MemLocals) : MemInfo :=
  { m_swapSize := toString v.swap_total_kb
    m_available := toString v.mem_avail_kb
    m_buffers := toString v.buffers_kb
    m_cached := toString v.cached_kb
    m_active := toString v.active_kb
    m_inactive := toString v.inactive_kb
    m_sharedSize := toString v.shmem_kb
    m_swapFree := toString v.swap_free_kb
    m_swapCached := toString v.swap_cached_kb
    m_slab := toString v.slab_kb
    m_dirty := toString v.dirty_kb
    m_mapped := toString v.mapped_kb }

/-- Method `DMemoryDevicePrivate::addMemInfo()`: the twelve members after the call. -/
def addMemInfo (uninit : MemLocals) (fp : Option ProcFile) : MemInfo :=
  numberAll (addMemInfoScan uninit fp).vars

/-! ## The inventory object -/

/-- The data members of `DMemoryDevicePrivate`. -/
structure DMemoryDevicePrivate where
  m_hwNode : hwNode
  m_listDeviceInfo : List DDeviceInfo
  mem : MemInfo

/-- The constructor of `DMemoryDevicePrivate`. `scanned` is the tree `m_hwNode` after
`scan_system(m_hwNode)`; `uninit` and `fp` are as in `addMemInfoScan`. -/
def DMemoryDevicePrivate.new (scanned : hwNode) (uninit : MemLocals) (fp : Option ProcFile) :
    DMemoryDevicePrivate :=
  { m_hwNode := scanned
    m_listDeviceInfo := addDeviceInfo scanned []
    mem := addMemInfo uninit fp }

/-- The call `QList<T>::operator[](int i)`: the element at `i`; `none` stands for the failed assertion
`i >= 0 && i < size()` ("index out of range"). -/
def qlistAt {α : Type} (l : List α) (i : Int) : Option α :=
  if 0 ≤ i ∧ i < (l.length : Int) then l.get? i.toNat else none

namespace DMemoryDevice

/-- Method `DMemoryDevice::count()`. -/
def count (d : DMemoryDevicePrivate) : Int := (d.m_listDeviceInfo.length : Int)

/-- Method `DMemoryDevice::vendor(int index)`. -/
def vendor (d : DMemoryDevicePrivate) (index : Int) : Option String :=
  if index < count d then (qlistAt d.m_listDeviceInfo index).map (fun e => e.vendorName)
  else some ""

/-- Method `DMemoryDevice::model(int index)`. -/
def model (d : DMemoryDevicePrivate) (index : Int) : Option String :=
  if index < count d then (qlistAt d.m_listDeviceInfo index).map (fun e => e.productName)
  else some ""

/-- Method `DMemoryDevice::totalWidth(int index)`. -/
def totalWidth (_d : DMemoryDevicePrivate) (_index : Int) : Option String := some ""

/-- Method `DMemoryDevice::dataWidth(int index)`. -/
def dataWidth (_d : DMemoryDevicePrivate) (_index : Int) : Option String := some ""

/-- Method `DMemoryDevice::type(int index)`. -/
def type (d : DMemoryDevicePrivate) (index : Int) : Option String :=
  if index < count d then
    (qlistAt d.m_listDeviceInfo index).map (fun e => e.deviceInfoLstMap.value "type")
  else some ""

/-- Method `DMemoryDevice::speed(int index)`. -/
def speed (d : DMemoryDevicePrivate) (index : Int) : Option String :=
  if index < count d then
    (qlistAt d.m_listDeviceInfo index).map (fun e => e.deviceInfoLstMap.value "speed")
  else some ""

/-- Method `DMemoryDevice::serialNumber(int index)`. -/
def serialNumber (d : DMemoryDevicePrivate) (index : Int) : Option String :=
  if index < count d then
    (qlistAt d.m_listDeviceInfo index).map (fun e => e.deviceInfoLstMap.value "serial")
  else some ""

/-- Method `DMemoryDevice::size(int index)`. -/
def size (d : DMemoryDevicePrivate) (index : Int) : Option String :=
  if index < count d then
    (qlistAt d.m_listDeviceInfo index).map (fun e => e.deviceInfoLstMap.value "size")
  else some ""

def swapSize (d : DMemoryDevicePrivate) : String := d.mem.m_swapSize

def available (d : DMemoryDevicePrivate) : String := d.mem.m_available

def buffers (d : DMemoryDevicePrivate) : String := d.mem.m_buffers

def cached (d : DMemoryDevicePrivate) : String := d.mem.m_cached

def active (d : DMemoryDevicePrivate) : String := d.mem.m_active

def inactive (d : DMemoryDevicePrivate) : String := d.mem.m_inactive

def sharedSize (d : DMemoryDevicePrivate) : String := d.mem.m_sharedSize

def swapFree (d : DMemoryDevicePrivate) : String := d.mem.m_swapFree

def swapCached (d : DMemoryDevicePrivate) : String := d.mem.m_swapCached

def slab (d : DMemoryDevicePrivate) : String := d.mem.m_slab

def dirty (d : DMemoryDevicePrivate) : String := d.mem.m_dirty

def mapped (d : DMemoryDevicePrivate) : String := d.mem.m_mapped

/-- The results of the twelve counter accessors, in the order `available`, `buffers`, `cached`,
`active`, `inactive`, `sharedSize`, `swapSize`, `swapFree`, `swapCached`, `slab`, `dirty`,
`mapped`. -/
def counterResults (d : DMemoryDevicePrivate) : List String :=
  [available d, buffers d, cached d, active d, inactive d, sharedSize d, swapSize d, swapFree d,
    swapCached d, slab d, dirty d, mapped d]

end DMemoryDevice

/-! ## Pre-order enumeration of a tree -/

mutual
/-- The nodes of a tree in pre-order: a node, then the nodes of each child subtree in child-index
order. -/
def preorder : hwNode → List hwNode
  | hwNode.mk cls b s d i v p n sr cf children =>
    hwNode.mk cls b s d i v p n sr cf children :: preorderChildren children
/-- The pre-order enumerations of a list of sibling subtrees, one after the other. -/
def preorderChildren : List hwNode → List hwNode
  | [] => []
  | c :: cs => preorder c ++ preorderChildren cs
end

/-- The memory-class nodes of a tree, in pre-order. -/
def memoryNodes (root : hwNode) : List hwNode :=
  (preorder root).filter (fun n => decide (n.getClass = hwClass.ddr))

/-! ## Example inputs -/

/-- A node without children. -/
def exampleLeaf (cls : hwClass) (businfo vendor product : String) (size : Nat)
    (serial : String) : hwNode :=
  hwNode.mk cls businfo "" "DIMM DDR4" "bank" vendor product size serial (fun _ => "") []

/-- A memory module with a size and a serial number, without bus info. -/
def exampleSamsung : hwNode :=
  exampleLeaf hwClass.ddr "" "Samsung" "M471A1K43CB1" 8589934592 "12345678"

/-- A memory module with bus info whose size and serial number are not known. -/
def exampleMicron : hwNode :=
  exampleLeaf hwClass.ddr "cpu@0" "Micron" "8ATF1G64HZ" 0 ""

/-- A small tree: a system root, a memory-class node with a memory-class child and a
non-memory child, and a second memory-class child of the root whose size is zero. -/
def exampleTree : hwNode :=
  hwNode.mk hwClass.sys_tem "" "" "Computer" "computer" "" "" 0 "" (fun _ => "")
    [ hwNode.mk hwClass.ddr "" "" "System Memory" "memory" "" "" 8589934592 "" (fun _ => "")
        [ exampleSamsung,
          exampleLeaf (hwClass.other 3) "pci@0000:00:00.0" "Intel" "Host bridge" 4096 "" ],
      exampleMicron ]

/-- Locals of `addMemInfo` that all hold zero. -/
def zeroLocals : MemLocals := ⟨0, 0, 0, 0, 0, 0, 0, 0, 0, 0, 0, 0, 0, 0⟩

/-- Locals of `addMemInfo` that hold what an earlier call left on the stack. -/
def staleLocals : MemLocals := ⟨7, 7, 7, 7, 7, 7, 7, 7, 7, 7, 7, 42, 7, 7⟩

/-- The counter file of the example: `MemTotal`, `MemAvailable` and `SwapTotal`. -/
def exampleProcFile : ProcFile :=
  { content :=
      "MemTotal: 16384000 kB\nMemAvailable: 8000000 kB\nSwapTotal: 2000000 kB\n".toList
    readError := false }

/-- A counter file whose `Slab:` line carries no number. -/
def fileMalformedSlab : ProcFile :=
  { content := "MemAvailable: 8 kB\nSlab: x\nDirty: 3 kB\n".toList, readError := false }

/-- The same counter file without the `Slab:` line. -/
def fileNoSlab : ProcFile :=
  { content := "MemAvailable: 8 kB\nDirty: 3 kB\n".toList, readError := false }

/-- The same counter file with a line `Active(anon):`, which starts with no label. -/
def fileActiveAnon : ProcFile :=
  { content := "MemAvailable: 8 kB\nActive(anon): 5 kB\nDirty: 3 kB\n".toList
    readError := false }

/-- The state in which the scan loop starts. -/
def scanStart (uninit : MemLocals) : ScanState :=
  { vars := uninit, nr := 0, warnings := [], stores := [] }

/-- The line does not start with `MemTotal:`. -/
def notMemTotal (line : List Char) : Bool := !decide (StartsWith "MemTotal:" line)

/-- A counter file with two well-formed `MemAvailable:` lines. -/
def fileTwoAvailable : ProcFile :=
  { content := "MemAvailable: 1 kB\nMemAvailable: 2 kB\n".toList, readError := false }

/-! ## The chain of branches as a table -/

/-- Names for the fourteen local counters of `addMemInfo`. -/
inductive Counter where
  | mem_total_kb : Counter
  | mem_free_kb : Counter
  | mem_avail_kb : Counter
  | buffers_kb : Counter
  | cached_kb : Counter
  | active_kb : Counter
  | inactive_kb : Counter
  | swap_total_kb : Counter
  | swap_free_kb : Counter
  | swap_cached_kb : Counter
  | shmem_kb : Counter
  | slab_kb : Counter
  | dirty_kb : Counter
  | mapped_kb : Counter
  deriving DecidableEq, Repr

/-- The content of a local counter. -/
def MemLocals.get (v : MemLocals) : Counter → Nat
  | Counter.mem_total_kb => v.mem_total_kb
  | Counter.mem_free_kb => v.mem_free_kb
  | Counter.mem_avail_kb => v.mem_avail_kb
  | Counter.buffers_kb => v.buffers_kb
  | Counter.cached_kb => v.cached_kb
  | Counter.active_kb => v.active_kb
  | Counter.inactive_kb => v.inactive_kb
  | Counter.swap_total_kb => v.swap_total_kb
  | Counter.swap_free_kb => v.swap_free_kb
  | Counter.swap_cached_kb => v.swap_cached_kb
  | Counter.shmem_kb => v.shmem_kb
  | Counter.slab_kb => v.slab_kb
  | Counter.dirty_kb => v.dirty_kb
  | Counter.mapped_kb => v.mapped_kb

/-- One branch of the chain in the scan loop: the label compared, the length passed to
`strncmp` and added to `line.data()`, the counter named in the `sscanf` call, and the name in
the failure message. -/
structure Branch where
  label : String
  len : Nat
  counter : Counter
  name : String
  deriving DecidableEq, Repr

/-- The fourteen branches of the chain (lines 111-194), in source order. -/
def branchTable : List Branch :=
  [ ⟨"MemTotal:", 9, Counter.mem_total_kb, "MemTotal"⟩,
    ⟨"MemFree:", 8, Counter.mem_free_kb, "MemFree"⟩,
    ⟨"MemAvailable:", 13, Counter.mem_avail_kb, "MemAvailable"⟩,
    ⟨"Buffers:", 8, Counter.buffers_kb, "Buffers"⟩,
    ⟨"Cached:", 7, Counter.cached_kb, "Cached"⟩,
    ⟨"SwapCached:", 11, Counter.swap_cached_kb, "SwapCached"⟩,
    ⟨"Active:", 7, Counter.active_kb, "Active"⟩,
    ⟨"Inactive:", 9, Counter.inactive_kb, "Inactive"⟩,
    ⟨"SwapTotal:", 10, Counter.swap_total_kb, "SwapTotal"⟩,
    ⟨"SwapFree:", 9, Counter.swap_free_kb, "SwapFree"⟩,
    ⟨"Dirty:", 6, Counter.dirty_kb, "Dirty"⟩,
    ⟨"Shmem:", 6, Counter.shmem_kb, "Shmem"⟩,
    ⟨"Slab:", 5, Counter.slab_kb, "Slab"⟩,
    ⟨"Mapped:", 7, Counter.mapped_kb, "Mapped"⟩ ]

/-- An `if` / `else if` chain over a list of branches, taken in the order of the list: the
first branch whose label the line starts with is run, and a line that starts with no label
leaves the state as it is. -/
def processTable : List Branch → ScanState → List Char → ScanState
  | [], st, _ => st
  | e :: t, st, line =>
    if strncmpEq line e.label.toList e.len then
      scanField st line e.len (st.vars.get e.counter) e.name
    else processTable t st line

/-! ## The store made by `sscanf` through the content of a counter -/

/-- What an `unsigned long long` store at an address does, as far as the fourteen counters go:
it overwrites one of them (the address is the address of that local), it lands in writable
memory that holds none of them, or it faults and the process is ended. -/
inductive StoreTarget where
  | counter (c : Counter) : StoreTarget
  | elsewhere : StoreTarget
  | fault : StoreTarget
  deriving DecidableEq, Repr

/-- The locals after one counter is overwritten. -/
def MemLocals.set (v : MemLocals) (c : Counter) (n : Nat) : MemLocals :=
  match c with
  | Counter.mem_total_kb => { v with mem_total_kb := n }
  | Counter.mem_free_kb => { v with mem_free_kb := n }
  | Counter.mem_avail_kb => { v with mem_avail_kb := n }
  | Counter.buffers_kb => { v with buffers_kb := n }
  | Counter.cached_kb => { v with cached_kb := n }
  | Counter.active_kb => { v with active_kb := n }
  | Counter.inactive_kb => { v with inactive_kb := n }
  | Counter.swap_total_kb => { v with swap_total_kb := n }
  | Counter.swap_free_kb => { v with swap_free_kb := n }
  | Counter.swap_cached_kb => { v with swap_cached_kb := n }
  | Counter.shmem_kb => { v with shmem_kb := n }
  | Counter.slab_kb => { v with slab_kb := n }
  | Counter.dirty_kb => { v with dirty_kb := n }
  | Counter.mapped_kb => { v with mapped_kb := n }

/-- One branch of the chain with the effect of the store. `mem` tells what a store at an address
does. The call `sscanf(line.data() + skip, "%llu", counter)` gets the content of the counter by
value and, when it converts a number, stores it at the address that this content designates:
the store overwrites the counter found there, lands outside the counters, or faults (`none`:
the construction does not complete). Without a conversion nothing is stored. The local `nr`,
the warning and the record of the store are those of `scanField`. -/
def scanFieldAt (mem : Nat → StoreTarget) (st : ScanState) (line : List Char) (skip : Nat)
    (c : Counter) (name : String) : Option ScanState :=
  match (sscanf_llu (line.drop skip)).2 with
  | none => some (scanField st line skip (st.vars.get c) name)
  | some v =>
    match mem (st.vars.get c) with
    | StoreTarget.counter c' =>
      some { scanField st line skip (st.vars.get c) name with vars := st.vars.set c' v }
    | StoreTarget.elsewhere => some (scanField st line skip (st.vars.get c) name)
    | StoreTarget.fault => none

/-- The chain over a list of branches, with the effect of the stores. -/
def processTableAt (mem : Nat → StoreTarget) : List Branch → ScanState → List Char →
    Option ScanState
  | [], st, _ => some st
  | e :: t, st, line =>
    if strncmpEq line e.label.toList e.len then
      scanFieldAt mem st line e.len e.counter e.name
    else processTableAt mem t st line

/-- The body of the scan loop on one line, with the effect of the stores. -/
def processLineAt (mem : Nat → StoreTarget) (st : ScanState) (line : List Char) :
    Option ScanState :=
  processTableAt mem branchTable st line

/-- The scan loop on the lines that `fgets` returns, with the effect of the stores; a fault ends
the run. -/
def scanLinesAt (mem : Nat → StoreTarget) : ScanState → List (List Char) → Option ScanState
  | st, [] => some st
  | st, l :: ls =>
    match processLineAt mem st l with
    | none => none
    | some st1 => scanLinesAt mem st1 ls

/-- The scan of `addMemInfo` with the effect of the stores; `none` when a store faults. -/
def addMemInfoScanAt (mem : Nat → StoreTarget) (uninit : MemLocals) (fp : Option ProcFile) :
    Option ScanState :=
  match fp with
  | none => some (scanStart uninit)
  | some f =>
    (scanLinesAt mem (scanStart uninit) (fgetsLines f.content)).map (fun st1 =>
      if f.readError then
        { st1 with warnings := st1.warnings ++ ["read /proc/meminfo failed"] }
      else st1)

/-- Method `DMemoryDevicePrivate::addMemInfo()` with the effect of the stores: the twelve
members after the call, `none` when a store faults. -/
def addMemInfoAt (mem : Nat → StoreTarget) (uninit : MemLocals) (fp : Option ProcFile) :
    Option MemInfo :=
  (addMemInfoScanAt mem uninit fp).map (fun st => numberAll st.vars)

/-- The constructor of `DMemoryDevicePrivate` with the effect of the stores: `none` when a store
faults, so that no inventory is constructed. -/
def DMemoryDevicePrivate.newAt (mem : Nat → StoreTarget) (scanned : hwNode)
    (uninit : MemLocals) (fp : Option ProcFile) : Option DMemoryDevicePrivate :=
  (addMemInfoAt mem uninit fp).map (fun m =>
    { m_hwNode := scanned, m_listDeviceInfo := addDeviceInfo scanned [], mem := m })

/-- The position of a counter among the declarations of lines 85-99. -/
def Counter.index : Counter → Nat
  | Counter.mem_total_kb => 0
  | Counter.mem_free_kb => 1
  | Counter.mem_avail_kb => 2
  | Counter.buffers_kb => 3
  | Counter.cached_kb => 4
  | Counter.active_kb => 5
  | Counter.inactive_kb => 6
  | Counter.swap_total_kb => 7
  | Counter.swap_free_kb => 8
  | Counter.swap_cached_kb => 9
  | Counter.shmem_kb => 10
  | Counter.slab_kb => 11
  | Counter.dirty_kb => 12
  | Counter.mapped_kb => 13

/-- The fourteen counters, in the order of their declarations. -/
def allCounters : List Counter :=
  [Counter.mem_total_kb, Counter.mem_free_kb, Counter.mem_avail_kb, Counter.buffers_kb,
    Counter.cached_kb, Counter.active_kb, Counter.inactive_kb, Counter.swap_total_kb,
    Counter.swap_free_kb, Counter.swap_cached_kb, Counter.shmem_kb, Counter.slab_kb,
    Counter.dirty_kb, Counter.mapped_kb]

/-- An example stack frame: the address of a counter, eight bytes apart from its neighbours. -/
def exampleAddr (c : Counter) : Nat := 140737488347000 + 8 * c.index

/-- An example memory: a store at the address of a counter overwrites that counter, a store in
the first page faults, and a store at any other address is taken to land outside the counters
(the examples use no address that overlaps a counter in part). -/
def exampleMem (a : Nat) : StoreTarget :=
  match allCounters.find? (fun c => decide (exampleAddr c = a)) with
  | some c => StoreTarget.counter c
  | none => if a < 4096 then StoreTarget.fault else StoreTarget.elsewhere

/-- Locals of `addMemInfo` that hold stale words, some of them addresses of the frame:
`mem_total_kb` holds the address of `swap_total_kb`, `mem_avail_kb` that of `buffers_kb`,
`swap_cached_kb` that of `cached_kb`, `slab_kb` that of `dirty_kb`, `dirty_kb` that of
`mapped_kb`; the others hold `7`. -/
def aliasLocals : MemLocals :=
  { mem_total_kb := exampleAddr Counter.swap_total_kb
    mem_free_kb := 7
    mem_avail_kb := exampleAddr Counter.buffers_kb
    buffers_kb := 7
    cached_kb := 7
    active_kb := 7
    inactive_kb := 7
    swap_total_kb := 7
    swap_free_kb := 7
    swap_cached_kb := exampleAddr Counter.cached_kb
    shmem_kb := 7
    slab_kb := exampleAddr Counter.dirty_kb
    dirty_kb := exampleAddr Counter.mapped_kb
    mapped_kb := 7 }

/-- An empty counter file. -/
def fileEmpty : ProcFile := { content := [], readError := false }

/-- A counter file with the single line `Slab: -5`. -/
def fileSignedSlab : ProcFile := { content := "Slab: -5\n".toList, readError := false }

/-- A counter file with the single line `MemTotal: 2000000 kB`. -/
def fileOnlyMemTotal : ProcFile :=
  { content := "MemTotal: 2000000 kB\n".toList, readError := false }

/-- A counter file with the single line `SwapCached: 5 kB`. -/
def fileOnlySwapCached : ProcFile :=
  { content := "SwapCached: 5 kB\n".toList, readError := false }

/-! ## The tree flattener: proofs -/

theorem filter_map_buildEntry_append (acc : List DDeviceInfo) (xs ys : List hwNode) :
    acc ++ ((xs ++ ys).filter (fun n => decide (n.getClass = hwClass.ddr))).map buildEntry
      = (acc ++ (xs.filter (fun n => decide (n.getClass = hwClass.ddr))).map buildEntry)
          ++ (ys.filter (fun n => decide (n.getClass = hwClass.ddr))).map buildEntry := by
  simp [List.filter_append, List.append_assoc]

mutual
/-- A call of `addDeviceInfo` appends to the list the records of the memory-class nodes of the
subtree, in pre-order. -/
theorem addDeviceInfo_acc : ∀ (node : hwNode) (acc : List DDeviceInfo),
    addDeviceInfo node acc
      = acc ++ ((preorder node).filter (fun n => decide (n.getClass = hwClass.ddr))).map buildEntry
  | hwNode.mk cls b s d i v p n sr cf children, acc => by
    rw [addDeviceInfo, preorder, addDeviceInfoChildren_acc children]
    by_cases h : cls = hwClass.ddr
    · subst h
      simp [hwNode.getClass, List.filter_cons]
    · have h2 : ¬ hwClass.ddr = cls := fun e => h e.symm
      simp [hwNode.getClass, List.filter_cons, h, h2]
/-- The loop over the children appends the records of the memory-class nodes of the sibling
subtrees, in pre-order. -/
theorem addDeviceInfoChildren_acc : ∀ (cs : List hwNode) (acc : List DDeviceInfo),
    addDeviceInfoChildren cs acc
      = acc ++ ((preorderChildren cs).filter
          (fun n => decide (n.getClass = hwClass.ddr))).map buildEntry
  | [], acc => by simp [addDeviceInfoChildren, preorderChildren]
  | c :: cs, acc => by
    rw [addDeviceInfoChildren, addDeviceInfo_acc c, addDeviceInfoChildren_acc cs, preorderChildren,
      filter_map_buildEntry_append]
end

theorem addDeviceInfo_nil (root : hwNode) :
    addDeviceInfo root [] = (memoryNodes root).map buildEntry := by
  rw [addDeviceInfo_acc]; simp [memoryNodes]

theorem new_list (root : hwNode) (uninit : MemLocals) (fp : Option ProcFile) :
    (DMemoryDevicePrivate.new root uninit fp).m_listDeviceInfo
      = (memoryNodes root).map buildEntry := by
  simp [DMemoryDevicePrivate.new, addDeviceInfo_nil]

theorem qlistAt_inrange {α : Type} (l : List α) (i : Int) (h0 : 0 ≤ i)
    (h1 : i < (l.length : Int)) : qlistAt l i = l.get? i.toNat := by
  simp [qlistAt, h0, h1]

theorem qlistAt_negative {α : Type} (l : List α) (i : Int) (h : i < 0) : qlistAt l i = none := by
  have : ¬ (0 ≤ i) := not_le.mpr h
  simp [qlistAt, this]

/-- C1: started on the root with an empty list, `addDeviceInfo` yields exactly the records built
from the memory-class (`hw::ddr`) nodes of the tree, one per such node and none for any other
node, in pre-order; hence `count()` is the number of memory-class nodes. -/
theorem addDeviceInfo_preorder_count (root : hwNode) (uninit : MemLocals)
    (fp : Option ProcFile) :
    addDeviceInfo root [] = (memoryNodes root).map buildEntry
    ∧ (addDeviceInfo root []).length
        = ((preorder root).filter (fun n => decide (n.getClass = hwClass.ddr))).length
    ∧ DMemoryDevice.count (DMemoryDevicePrivate.new root uninit fp)
        = ((memoryNodes root).length : Int) := by
  refine ⟨addDeviceInfo_nil root, ?_, ?_⟩
  · rw [addDeviceInfo_nil]; simp [memoryNodes]
  · simp [DMemoryDevice.count, new_list]

/-! ## The index accessors -/

theorem count_nonneg (d : DMemoryDevicePrivate) : 0 ≤ DMemoryDevice.count d := by
  simp [DMemoryDevice.count]

/-- At an index that is not below `count()`, the six index accessors return the empty string. -/
theorem accessors_at_or_above_count (d : DMemoryDevicePrivate) (index : Int)
    (h : DMemoryDevice.count d ≤ index) :
    DMemoryDevice.vendor d index = some "" ∧ DMemoryDevice.model d index = some ""
    ∧ DMemoryDevice.type d index = some "" ∧ DMemoryDevice.speed d index = some ""
    ∧ DMemoryDevice.serialNumber d index = some "" ∧ DMemoryDevice.size d index = some "" := by
  have h2 : ¬ index < DMemoryDevice.count d := not_lt.mpr h
  simp [DMemoryDevice.vendor, DMemoryDevice.model, DMemoryDevice.type, DMemoryDevice.speed,
    DMemoryDevice.serialNumber, DMemoryDevice.size, h2]

/-- C2 (the code at a negative index): for every inventory, each of the six index accessors
called with index `-1` passes the test `index < count()` and indexes the list at `-1`, which
fails the range assertion of `QList::operator[]`; no empty string is returned. -/
theorem accessors_at_minus_one (d : DMemoryDevicePrivate) :
    DMemoryDevice.vendor d (-1) = none ∧ DMemoryDevice.model d (-1) = none
    ∧ DMemoryDevice.type d (-1) = none ∧ DMemoryDevice.speed d (-1) = none
    ∧ DMemoryDevice.serialNumber d (-1) = none ∧ DMemoryDevice.size d (-1) = none := by
  have h : (-1 : Int) < DMemoryDevice.count d :=
    lt_of_lt_of_le (by decide) (count_nonneg d)
  have hq : qlistAt d.m_listDeviceInfo (-1) = none := qlistAt_negative _ _ (by decide)
  simp [DMemoryDevice.vendor, DMemoryDevice.model, DMemoryDevice.type, DMemoryDevice.speed,
    DMemoryDevice.serialNumber, DMemoryDevice.size, h, hq]

theorem buildEntry_value_serial (node : hwNode) :
    (buildEntry node).deviceInfoLstMap.value "serial" = node.getSerial := by
  unfold buildEntry
  by_cases h1 : node.getBusInfo = "" <;> by_cases h2 : 0 < node.getSize <;>
    simp only [h1, h2, if_true, if_false, ne_eq, not_true_eq_false, not_false_eq_true,
      gt_iff_lt] <;> rfl

theorem buildEntry_value_type (node : hwNode) :
    (buildEntry node).deviceInfoLstMap.value "type" = node.getDescription := by
  unfold buildEntry
  by_cases h1 : node.getBusInfo = "" <;> by_cases h2 : 0 < node.getSize <;>
    simp only [h1, h2, if_true, if_false, ne_eq, not_true_eq_false, not_false_eq_true,
      gt_iff_lt] <;> rfl

theorem buildEntry_value_size (node : hwNode) :
    (buildEntry node).deviceInfoLstMap.value "size"
      = if 0 < node.getSize then toString node.getSize else "" := by
  unfold buildEntry
  by_cases h1 : node.getBusInfo = "" <;> by_cases h2 : 0 < node.getSize <;>
    simp only [h1, h2, if_true, if_false, ne_eq, not_true_eq_false, not_false_eq_true,
      gt_iff_lt] <;> rfl

theorem buildEntry_value_speed (node : hwNode) :
    (buildEntry node).deviceInfoLstMap.value "speed" = "" := by
  unfold buildEntry
  by_cases h1 : node.getBusInfo = "" <;> by_cases h2 : 0 < node.getSize <;>
    simp only [h1, h2, if_true, if_false, ne_eq, not_true_eq_false, not_false_eq_true,
      gt_iff_lt] <;> rfl

/-- The sorted key list of the attribute map of a record, in the four cases. -/
theorem buildEntry_keys_eq (node : hwNode) :
    (buildEntry node).deviceInfoLstMap.keys
      = ["Description", "MemAvailable", "Name"]
        ++ (if node.getBusInfo ≠ "" then ["SysFs_PATH"] else [])
        ++ ["Vendor", "serial"]
        ++ (if 0 < node.getSize then ["size"] else [])
        ++ ["sysID", "type"] := by
  unfold buildEntry
  by_cases h1 : node.getBusInfo = "" <;> by_cases h2 : 0 < node.getSize <;>
    simp only [h1, h2, if_true, if_false, ne_eq, not_true_eq_false, not_false_eq_true,
      gt_iff_lt] <;> rfl

/-- An in-range index reads the record built from the memory-class node at that position. -/
theorem qlistAt_new (root : hwNode) (uninit : MemLocals) (fp : Option ProcFile) (index : Int)
    (h0 : 0 ≤ index)
    (h1 : index < DMemoryDevice.count (DMemoryDevicePrivate.new root uninit fp)) :
    qlistAt (DMemoryDevicePrivate.new root uninit fp).m_listDeviceInfo index
      = ((memoryNodes root).get? index.toNat).map buildEntry := by
  rw [qlistAt_inrange _ _ h0 h1, new_list]
  simp

/-- C3: for every tree and every index with `0 <= index < count()`, there is a memory-class node
at that position of the pre-order enumeration, and `vendor`, `model`, `serialNumber` and `type`
return its vendor, product, serial and description strings. -/
theorem accessors_in_range (root : hwNode) (uninit : MemLocals) (fp : Option ProcFile)
    (index : Int) (h0 : 0 ≤ index)
    (h1 : index < DMemoryDevice.count (DMemoryDevicePrivate.new root uninit fp)) :
    ((memoryNodes root).get? index.toNat).isSome = true
    ∧ DMemoryDevice.vendor (DMemoryDevicePrivate.new root uninit fp) index
        = ((memoryNodes root).get? index.toNat).map hwNode.getVendor
    ∧ DMemoryDevice.model (DMemoryDevicePrivate.new root uninit fp) index
        = ((memoryNodes root).get? index.toNat).map hwNode.getProduct
    ∧ DMemoryDevice.serialNumber (DMemoryDevicePrivate.new root uninit fp) index
        = ((memoryNodes root).get? index.toNat).map hwNode.getSerial
    ∧ DMemoryDevice.type (DMemoryDevicePrivate.new root uninit fp) index
        = ((memoryNodes root).get? index.toNat).map hwNode.getDescription := by
  have hq := qlistAt_new root uninit fp index h0 h1
  have hlen : index.toNat < (memoryNodes root).length := by
    have h2 := h1
    simp only [DMemoryDevice.count, new_list, List.length_map] at h2
    omega
  refine ⟨?_, ?_, ?_, ?_, ?_⟩
  · simp [List.getElem?_eq_getElem hlen]
  · simp only [DMemoryDevice.vendor, h1, if_true, hq, Option.map_map]
    cases (memoryNodes root).get? index.toNat <;> simp [buildEntry]
  · simp only [DMemoryDevice.model, h1, if_true, hq, Option.map_map]
    cases (memoryNodes root).get? index.toNat <;> simp [buildEntry]
  · simp only [DMemoryDevice.serialNumber, h1, if_true, hq, Option.map_map]
    cases (memoryNodes root).get? index.toNat <;> simp [buildEntry_value_serial]
  · simp only [DMemoryDevice.type, h1, if_true, hq, Option.map_map]
    cases (memoryNodes root).get? index.toNat <;> simp [buildEntry_value_type]

/-- The accessors at index `2` of the example tree, whose third memory module is the Micron
one. -/
theorem accessors_in_range_witness :
    (0 : Int) ≤ 2
    ∧ (2 : Int) < DMemoryDevice.count (DMemoryDevicePrivate.new exampleTree zeroLocals none)
    ∧ DMemoryDevice.vendor (DMemoryDevicePrivate.new exampleTree zeroLocals none) 2
        = ((memoryNodes exampleTree).get? (2 : Int).toNat).map hwNode.getVendor
    ∧ DMemoryDevice.vendor (DMemoryDevicePrivate.new exampleTree zeroLocals none) 2
        = some "Micron" :=
  ⟨by decide, by decide,
    (accessors_in_range exampleTree zeroLocals none 2 (by decide) (by decide)).2.1, by decide⟩

/-- C4: the attribute map of the record built for a node has the key `size` exactly when the
size of the node is greater than zero, and its value is then the decimal string of the size; at
an in-range index whose node has size zero, `size(index)` returns the empty string. -/
theorem size_attribute (node root : hwNode) (uninit : MemLocals) (fp : Option ProcFile)
    (index : Int) :
    ((buildEntry node).deviceInfoLstMap.contains "size" = true ↔ 0 < node.getSize)
    ∧ (0 < node.getSize →
        (buildEntry node).deviceInfoLstMap.value "size" = toString node.getSize)
    ∧ (0 ≤ index → index < DMemoryDevice.count (DMemoryDevicePrivate.new root uninit fp) →
        (memoryNodes root).get? index.toNat = some node → node.getSize = 0 →
        DMemoryDevice.size (DMemoryDevicePrivate.new root uninit fp) index = some "") := by
  refine ⟨?_, ?_, ?_⟩
  · rw [QMap.contains, buildEntry_keys_eq]
    by_cases h1 : node.getBusInfo = "" <;> by_cases h2 : 0 < node.getSize <;>
      simp [h1, h2]
  · intro h
    rw [buildEntry_value_size, if_pos h]
  · intro h0 h1 hn hs
    have hq := qlistAt_new root uninit fp index h0 h1
    simp only [DMemoryDevice.size, h1, if_true, hq, hn, Option.map_some', buildEntry_value_size,
      hs, lt_irrefl, if_false]

/-- The size attribute of the two modules of the example tree: one with a size, one without. -/
theorem size_attribute_witness :
    (0 < exampleSamsung.getSize
      ∧ (buildEntry exampleSamsung).deviceInfoLstMap.value "size" = "8589934592")
    ∧ ((0 : Int) ≤ 2
      ∧ (2 : Int) < DMemoryDevice.count (DMemoryDevicePrivate.new exampleTree zeroLocals none)
      ∧ (memoryNodes exampleTree).get? (2 : Int).toNat = some exampleMicron
      ∧ exampleMicron.getSize = 0
      ∧ DMemoryDevice.size (DMemoryDevicePrivate.new exampleTree zeroLocals none) 2 = some "") :=
  ⟨⟨by decide, (size_attribute exampleSamsung exampleTree zeroLocals none 0).2.1 (by decide)⟩,
    by decide, by decide, rfl, rfl,
    (size_attribute exampleMicron exampleTree zeroLocals none 2).2.2
      (by decide) (by decide) rfl rfl⟩

/-- C10: the attribute map of the record built for a node has exactly the keys `Description`,
`sysID`, `Vendor`, `Name`, `serial`, `type`, `MemAvailable`, plus `SysFs_PATH` exactly when the
bus info is not empty, plus `size` exactly when the size is greater than zero; no key occurs
twice. The seven fixed keys are present whatever their values are. -/
theorem buildEntry_keys (node : hwNode) :
    (∀ k : String, k ∈ (buildEntry node).deviceInfoLstMap.keys ↔
        (k ∈ ["Description", "sysID", "Vendor", "Name", "serial", "type", "MemAvailable"]
          ∨ (k = "SysFs_PATH" ∧ node.getBusInfo ≠ "")
          ∨ (k = "size" ∧ 0 < node.getSize)))
    ∧ (buildEntry node).deviceInfoLstMap.keys.Nodup := by
  rw [buildEntry_keys_eq]
  by_cases h1 : node.getBusInfo = "" <;> by_cases h2 : 0 < node.getSize
  · refine ⟨fun k => ?_, ?_⟩
    · simp [h1, h2]; tauto
    · simp only [h1, h2, if_true, if_false, ne_eq, not_true_eq_false]; decide
  · refine ⟨fun k => ?_, ?_⟩
    · simp [h1, h2]; tauto
    · simp only [h1, h2, if_true, if_false, ne_eq, not_true_eq_false]; decide
  · refine ⟨fun k => ?_, ?_⟩
    · simp [h1, h2]; tauto
    · simp only [h1, h2, if_true, if_false, ne_eq, not_false_eq_true]; decide
  · refine ⟨fun k => ?_, ?_⟩
    · simp [h1, h2]; tauto
    · simp only [h1, h2, if_true, if_false, ne_eq, not_false_eq_true]; decide

/-! ## The counter file: the scan never assigns a counter -/

theorem scanField_vars (st : ScanState) (line : List Char) (skip var : Nat) (name : String) :
    (scanField st line skip var name).vars = st.vars := by
  by_cases h : (sscanf_llu (line.drop skip)).1 = 1 <;> simp [scanField, h]

theorem processLine_vars (st : ScanState) (line : List Char) :
    (processLine st line).vars = st.vars := by
  unfold processLine
  simp only [apply_ite ScanState.vars, scanField_vars, ite_self]

theorem whileFgetsBounded_vars (fuel : Nat) (st : ScanState) (s : List Char) :
    (whileFgetsBounded fuel st s).vars = st.vars := by
  induction fuel generalizing st s with
  | zero => rfl
  | succ fuel ih =>
    unfold whileFgetsBounded
    split
    · rfl
    · rw [ih, processLine_vars]

theorem addMemInfoScan_vars (uninit : MemLocals) (fp : Option ProcFile) :
    (addMemInfoScan uninit fp).vars = uninit := by
  unfold addMemInfoScan
  cases fp with
  | none => rfl
  | some f =>
    simp only
    split <;> simp [whileFgets, whileFgetsBounded_vars]

/-- Whatever the counter file holds, the twelve members are the decimal strings of what the
locals held at entry. -/
theorem addMemInfo_eq (uninit : MemLocals) (fp : Option ProcFile) :
    addMemInfo uninit fp = numberAll uninit := by
  rw [addMemInfo, addMemInfoScan_vars]

/-! ## The scan loop: the bound on the iterations is never reached -/

theorem fgetsTake_length (room : Nat) (s : List Char) :
    (fgetsTake room s).2.length ≤ s.length := by
  induction room generalizing s with
  | zero => simp [fgetsTake]
  | succ room ih =>
    cases s with
    | nil => simp [fgetsTake]
    | cons c s =>
      unfold fgetsTake
      split
      · simp
      · simpa using Nat.le_succ_of_le (ih s)

theorem fgets_rest_length (s line rest : List Char) (h : fgets BUFLEN s = some (line, rest)) :
    rest.length < s.length := by
  cases s with
  | nil => simp [fgets] at h
  | cons c s =>
    have h2 : fgetsTake 511 (c :: s) = (line, rest) := by
      simpa [fgets, BUFLEN] using h
    unfold fgetsTake at h2
    split at h2
    · simp only [Prod.mk.injEq] at h2
      rw [← h2.2]; simp
    · simp only [Prod.mk.injEq] at h2
      rw [← h2.2]
      simpa using Nat.lt_succ_of_le (fgetsTake_length 510 s)

theorem whileFgetsBounded_enough (fuel1 fuel2 : Nat) (st : ScanState) (s : List Char)
    (h1 : s.length ≤ fuel1) (h2 : s.length ≤ fuel2) :
    whileFgetsBounded fuel1 st s = whileFgetsBounded fuel2 st s := by
  induction fuel1 generalizing fuel2 st s with
  | zero =>
    have hs : s = [] := List.eq_nil_of_length_eq_zero (Nat.le_zero.mp h1)
    subst hs
    cases fuel2 <;> simp [whileFgetsBounded, fgets]
  | succ fuel1 ih =>
    cases fuel2 with
    | zero =>
      have hs : s = [] := List.eq_nil_of_length_eq_zero (Nat.le_zero.mp h2)
      subst hs
      simp [whileFgetsBounded, fgets]
    | succ fuel2 =>
      unfold whileFgetsBounded
      cases hf : fgets BUFLEN s with
      | none => rfl
      | some p =>
        obtain ⟨line, rest⟩ := p
        have hlt := fgets_rest_length s line rest hf
        exact ih fuel2 _ rest (by omega) (by omega)

/-- The loop, one iteration at a time: it ends when `fgets` returns a null pointer, and only
then; otherwise the body runs on the line read and the loop goes on with the rest of the
stream. -/
theorem whileFgets_unfold (st : ScanState) (s : List Char) :
    whileFgets st s =
      match fgets BUFLEN s with
      | none => st
      | some (line, rest) => whileFgets (processLine st line) rest := by
  unfold whileFgets
  cases s with
  | nil => simp [whileFgetsBounded, fgets]
  | cons c s =>
    rw [List.length_cons, whileFgetsBounded]
    cases hf : fgets BUFLEN (c :: s) with
    | none => rfl
    | some p =>
      obtain ⟨line, rest⟩ := p
      have hlt := fgets_rest_length (c :: s) line rest hf
      simp only [List.length_cons] at hlt
      exact whileFgetsBounded_enough _ _ _ rest (by omega) (le_refl _)

theorem whileFgetsBounded_foldl (fuel : Nat) (st : ScanState) (s : List Char) :
    whileFgetsBounded fuel st s = (fgetsLinesBounded fuel s).foldl processLine st := by
  induction fuel generalizing st s with
  | zero => rfl
  | succ fuel ih =>
    unfold whileFgetsBounded fgetsLinesBounded
    cases hf : fgets BUFLEN s with
    | none => rfl
    | some p =>
      obtain ⟨line, rest⟩ := p
      simp [ih]

/-- The loop runs its body on the lines of the stream, first to last. -/
theorem whileFgets_foldl (st : ScanState) (s : List Char) :
    whileFgets st s = (fgetsLines s).foldl processLine st :=
  whileFgetsBounded_foldl s.length st s

/-! ## The counter file: labels -/

theorem strncmpEq_iff (lab : List Char) (hl : ∀ c ∈ lab, c ≠ Char.ofNat 0) (a : List Char) :
    strncmpEq a lab lab.length = true ↔ lab <+: a := by
  induction lab generalizing a with
  | nil => simp [strncmpEq]
  | cons c lab ih =>
    have hc : c ≠ Char.ofNat 0 := hl c (List.mem_cons_self _ _)
    have hl2 : ∀ x ∈ lab, x ≠ Char.ofNat 0 := fun x hx => hl x (List.mem_cons_of_mem _ hx)
    cases a with
    | nil =>
      have h : ¬ (c :: lab <+: ([] : List Char)) := by simp
      simp [strncmpEq, cHead, hc.symm, h]
    | cons x xs =>
      by_cases hx : x = c
      · subst hx
        have := ih hl2 xs
        simp [strncmpEq, cHead, hc, List.cons_prefix_cons, this]
      · have hx2 : ¬ c = x := fun e => hx e.symm
        simp [strncmpEq, cHead, hx, hx2, List.cons_prefix_cons]

theorem labels_no_nul : ∀ lab ∈ labels, ∀ c ∈ lab.toList, c ≠ Char.ofNat 0 := by decide

theorem strncmpEq_label (lab : String) (hmem : lab ∈ labels) (a : List Char) :
    strncmpEq a lab.toList lab.length = true ↔ StartsWith lab a := by
  have h := strncmpEq_iff lab.toList (labels_no_nul lab hmem) a
  simpa [StartsWith] using h

/-- A line that starts with none of the fourteen labels leaves the whole state of the scan as it
is. -/
theorem processLine_unlabelled (st : ScanState) (b : List Char)
    (hb : ∀ lab ∈ labels, ¬ StartsWith lab b) : processLine st b = st := by
  have key : ∀ lab ∈ labels, strncmpEq b lab.toList lab.length = false := by
    intro lab hmem
    have h := (strncmpEq_label lab hmem b).not.mpr (hb lab hmem)
    simpa using h
  have h1 : strncmpEq b "MemTotal:".toList 9 = false := key "MemTotal:" (by decide)
  have h2 : strncmpEq b "MemFree:".toList 8 = false := key "MemFree:" (by decide)
  have h3 : strncmpEq b "MemAvailable:".toList 13 = false := key "MemAvailable:" (by decide)
  have h4 : strncmpEq b "Buffers:".toList 8 = false := key "Buffers:" (by decide)
  have h5 : strncmpEq b "Cached:".toList 7 = false := key "Cached:" (by decide)
  have h6 : strncmpEq b "SwapCached:".toList 11 = false := key "SwapCached:" (by decide)
  have h7 : strncmpEq b "Active:".toList 7 = false := key "Active:" (by decide)
  have h8 : strncmpEq b "Inactive:".toList 9 = false := key "Inactive:" (by decide)
  have h9 : strncmpEq b "SwapTotal:".toList 10 = false := key "SwapTotal:" (by decide)
  have h10 : strncmpEq b "SwapFree:".toList 9 = false := key "SwapFree:" (by decide)
  have h11 : strncmpEq b "Dirty:".toList 6 = false := key "Dirty:" (by decide)
  have h12 : strncmpEq b "Shmem:".toList 6 = false := key "Shmem:" (by decide)
  have h13 : strncmpEq b "Slab:".toList 5 = false := key "Slab:" (by decide)
  have h14 : strncmpEq b "Mapped:".toList 7 = false := key "Mapped:" (by decide)
  unfold processLine
  rw [h1, h2, h3, h4, h5, h6, h7, h8, h9, h10, h11, h12, h13, h14]
  rfl

/-- A line that starts with `MemTotal:` takes the first branch of the chain. -/
theorem processLine_memTotal (st : ScanState) (line : List Char)
    (h : StartsWith "MemTotal:" line) :
    processLine st line = scanField st line 9 st.vars.mem_total_kb "MemTotal" := by
  have h1 : strncmpEq line "MemTotal:".toList 9 = true :=
    (strncmpEq_label "MemTotal:" (by decide) line).mpr h
  unfold processLine
  rw [h1]
  rfl

theorem foldl_processLine_vars (L : List (List Char)) (st : ScanState) :
    (L.foldl processLine st).vars = st.vars := by
  induction L generalizing st with
  | nil => rfl
  | cons l L ih => rw [List.foldl_cons, ih, processLine_vars]

theorem counterResults_new (root : hwNode) (uninit : MemLocals) (fp : Option ProcFile) :
    DMemoryDevice.counterResults (DMemoryDevicePrivate.new root uninit fp)
      = [toString uninit.mem_avail_kb, toString uninit.buffers_kb, toString uninit.cached_kb,
          toString uninit.active_kb, toString uninit.inactive_kb, toString uninit.shmem_kb,
          toString uninit.swap_total_kb, toString uninit.swap_free_kb,
          toString uninit.swap_cached_kb, toString uninit.slab_kb, toString uninit.dirty_kb,
          toString uninit.mapped_kb] := by
  simp [DMemoryDevice.counterResults, DMemoryDevicePrivate.new, addMemInfo_eq, numberAll,
    DMemoryDevice.available, DMemoryDevice.buffers, DMemoryDevice.cached, DMemoryDevice.active,
    DMemoryDevice.inactive, DMemoryDevice.sharedSize, DMemoryDevice.swapSize,
    DMemoryDevice.swapFree, DMemoryDevice.swapCached, DMemoryDevice.slab, DMemoryDevice.dirty,
    DMemoryDevice.mapped]

/-! ## The counter accessors -/

/-- C5 (the code on the example file): with the lines `MemTotal: 16384000 kB`,
`MemAvailable: 8000000 kB`, `SwapTotal: 2000000 kB`, every line is converted without a warning
and the three values are stored through the content of the counters, but no counter is assigned:
`available()` and `swapSize()` return the decimal string of what the locals held at entry, `0`
for zeroed locals and not `8000000` and `2000000`. -/
theorem example_file_counters :
    DMemoryDevice.available
        (DMemoryDevicePrivate.new exampleTree zeroLocals (some exampleProcFile)) = "0"
    ∧ DMemoryDevice.swapSize
        (DMemoryDevicePrivate.new exampleTree zeroLocals (some exampleProcFile)) = "0"
    ∧ (addMemInfoScan zeroLocals (some exampleProcFile)).warnings = []
    ∧ (addMemInfoScan zeroLocals (some exampleProcFile)).stores
        = [(0, 16384000), (0, 8000000), (0, 2000000)]
    ∧ (∀ uninit : MemLocals,
        DMemoryDevice.available
            (DMemoryDevicePrivate.new exampleTree uninit (some exampleProcFile))
          = toString uninit.mem_avail_kb
        ∧ DMemoryDevice.swapSize
            (DMemoryDevicePrivate.new exampleTree uninit (some exampleProcFile))
          = toString uninit.swap_total_kb) := by
  refine ⟨by decide, by decide, by decide, by decide, fun uninit => ?_⟩
  simp [DMemoryDevice.available, DMemoryDevice.swapSize, DMemoryDevicePrivate.new,
    addMemInfo_eq, numberAll]

/-- C6 (the code on stale locals): when the file cannot be opened, and when it has no `Slab:`
line, `slab()` returns the decimal string of what the local `slab_kb` held at entry, here `42`,
and the twelve accessors return the strings of the twelve stale values, not `0`. -/
theorem stale_locals_counters :
    DMemoryDevice.slab (DMemoryDevicePrivate.new exampleTree staleLocals none) = "42"
    ∧ DMemoryDevice.slab
        (DMemoryDevicePrivate.new exampleTree staleLocals (some exampleProcFile)) = "42"
    ∧ DMemoryDevice.counterResults (DMemoryDevicePrivate.new exampleTree staleLocals none)
        = ["7", "7", "7", "7", "7", "7", "7", "7", "7", "42", "7", "7"]
    ∧ (fgetsLines exampleProcFile.content).filter (fun l => decide (StartsWith "Slab:" l))
        = [] := by
  refine ⟨by decide, by decide, by decide, by decide⟩

/-- C8: a line that starts with none of the fourteen labels is ignored: the loop body leaves the
state as it is, so the scan of the file with the line ends in the same state as the scan of the
file without it, and the twelve counter accessors return the same strings. -/
theorem unlabelled_line_ignored (root : hwNode) (uninit : MemLocals) (f1 f2 : ProcFile)
    (L1 L2 : List (List Char)) (b : List Char)
    (h1 : fgetsLines f1.content = L1 ++ [b] ++ L2)
    (h2 : fgetsLines f2.content = L1 ++ L2)
    (hb : ∀ lab ∈ labels, ¬ StartsWith lab b) :
    DMemoryDevice.counterResults (DMemoryDevicePrivate.new root uninit (some f1))
      = DMemoryDevice.counterResults (DMemoryDevicePrivate.new root uninit (some f2))
    ∧ (∀ st : ScanState, processLine st b = st)
    ∧ whileFgets (scanStart uninit) f1.content = whileFgets (scanStart uninit) f2.content := by
  refine ⟨?_, fun st => processLine_unlabelled st b hb, ?_⟩
  · rw [counterResults_new, counterResults_new]
  · rw [whileFgets_foldl, whileFgets_foldl, h1, h2]
    simp [List.foldl_append, processLine_unlabelled _ b hb]

/-- The three lines `memavailable: 5 kB`, ` MemAvailable: 5 kB` and `Active(anon): 5 kB` start
with no label; the last one between a `MemAvailable:` line and a `Dirty:` line. -/
theorem unlabelled_line_ignored_witness :
    (∀ b ∈ ["memavailable: 5 kB\n".toList, " MemAvailable: 5 kB\n".toList,
        "Active(anon): 5 kB\n".toList], ∀ lab ∈ labels, ¬ StartsWith lab b)
    ∧ DMemoryDevice.counterResults
        (DMemoryDevicePrivate.new exampleTree staleLocals (some fileActiveAnon))
      = DMemoryDevice.counterResults
        (DMemoryDevicePrivate.new exampleTree staleLocals (some fileNoSlab))
    ∧ (∀ st : ScanState, processLine st "Active(anon): 5 kB\n".toList = st)
    ∧ whileFgets (scanStart staleLocals) fileActiveAnon.content
        = whileFgets (scanStart staleLocals) fileNoSlab.content :=
  ⟨by decide,
    unlabelled_line_ignored exampleTree staleLocals fileActiveAnon fileNoSlab
      ["MemAvailable: 8 kB\n".toList] ["Dirty: 3 kB\n".toList] "Active(anon): 5 kB\n".toList
      (by decide) (by decide) (by decide)⟩


/-! ## Records: denormalized fields and the attribute list -/

theorem buildEntry_value_vendor (node : hwNode) :
    (buildEntry node).deviceInfoLstMap.value "Vendor" = node.getVendor := by
  unfold buildEntry
  by_cases h1 : node.getBusInfo = "" <;> by_cases h2 : 0 < node.getSize <;>
    simp only [h1, h2, if_true, if_false, ne_eq, not_true_eq_false, not_false_eq_true,
      gt_iff_lt] <;> rfl

theorem buildEntry_value_name (node : hwNode) :
    (buildEntry node).deviceInfoLstMap.value "Name" = node.getProduct := by
  unfold buildEntry
  by_cases h1 : node.getBusInfo = "" <;> by_cases h2 : 0 < node.getSize <;>
    simp only [h1, h2, if_true, if_false, ne_eq, not_true_eq_false, not_false_eq_true,
      gt_iff_lt] <;> rfl

theorem buildEntry_value_description (node : hwNode) :
    (buildEntry node).deviceInfoLstMap.value "Description" = node.getDescription := by
  unfold buildEntry
  by_cases h1 : node.getBusInfo = "" <;> by_cases h2 : 0 < node.getSize <;>
    simp only [h1, h2, if_true, if_false, ne_eq, not_true_eq_false, not_false_eq_true,
      gt_iff_lt] <;> rfl

/-- The attribute-name list of a record, in the order of the `append` calls. -/
theorem buildEntry_attris_eq (node : hwNode) :
    (buildEntry node).deviceBaseAttrisLst
      = (if node.getBusInfo ≠ "" then ["SysFs_PATH"] else [])
        ++ ["Description", "sysID", "Vendor", "Name"]
        ++ (if 0 < node.getSize then ["size"] else []) := by
  unfold buildEntry
  by_cases h1 : node.getBusInfo = "" <;> by_cases h2 : 0 < node.getSize <;>
    simp only [h1, h2, if_true, if_false, ne_eq, not_true_eq_false, not_false_eq_true,
      gt_iff_lt] <;> rfl

/-- Every record of a constructed inventory is the record built from some node. -/
theorem mem_new_list (root : hwNode) (uninit : MemLocals) (fp : Option ProcFile)
    (e : DDeviceInfo) (he : e ∈ (DMemoryDevicePrivate.new root uninit fp).m_listDeviceInfo) :
    ∃ node : hwNode, e = buildEntry node := by
  rw [new_list] at he
  obtain ⟨node, _, hn⟩ := List.mem_map.mp he
  exact ⟨node, hn.symm⟩

theorem qlistAt_mem {α : Type} (l : List α) (i : Int) (a : α) (h : qlistAt l i = some a) :
    a ∈ l := by
  unfold qlistAt at h
  split at h
  · exact List.mem_iff_get?.mpr ⟨_, h⟩
  · simp at h

/-- C11: every record of the device list has `vendorName` equal to the map value of `Vendor`,
`productName` equal to the map value of `Name`, and the map value of `type` equal to the map
value of `Description`; hence `vendor(index)` and `model(index)` give what the same accessors
reading the map entries `Vendor` and `Name` would give, at every index. -/
theorem denormalized_fields_agree (root : hwNode) (uninit : MemLocals) (fp : Option ProcFile)
    (e : DDeviceInfo) (he : e ∈ (DMemoryDevicePrivate.new root uninit fp).m_listDeviceInfo)
    (index : Int) :
    e.vendorName = e.deviceInfoLstMap.value "Vendor"
    ∧ e.productName = e.deviceInfoLstMap.value "Name"
    ∧ e.deviceInfoLstMap.value "type" = e.deviceInfoLstMap.value "Description"
    ∧ DMemoryDevice.vendor (DMemoryDevicePrivate.new root uninit fp) index
        = (if index < DMemoryDevice.count (DMemoryDevicePrivate.new root uninit fp) then
            (qlistAt (DMemoryDevicePrivate.new root uninit fp).m_listDeviceInfo index).map
              (fun r => r.deviceInfoLstMap.value "Vendor")
          else some "")
    ∧ DMemoryDevice.model (DMemoryDevicePrivate.new root uninit fp) index
        = (if index < DMemoryDevice.count (DMemoryDevicePrivate.new root uninit fp) then
            (qlistAt (DMemoryDevicePrivate.new root uninit fp).m_listDeviceInfo index).map
              (fun r => r.deviceInfoLstMap.value "Name")
          else some "") := by
  have hall : ∀ r ∈ (DMemoryDevicePrivate.new root uninit fp).m_listDeviceInfo,
      r.vendorName = r.deviceInfoLstMap.value "Vendor"
      ∧ r.productName = r.deviceInfoLstMap.value "Name"
      ∧ r.deviceInfoLstMap.value "type" = r.deviceInfoLstMap.value "Description" := by
    intro r hr
    obtain ⟨node, rfl⟩ := mem_new_list root uninit fp r hr
    rw [buildEntry_value_vendor, buildEntry_value_name, buildEntry_value_type,
      buildEntry_value_description]
    exact ⟨rfl, rfl, rfl⟩
  refine ⟨(hall e he).1, (hall e he).2.1, (hall e he).2.2, ?_, ?_⟩
  · unfold DMemoryDevice.vendor
    split
    · cases hq : qlistAt (DMemoryDevicePrivate.new root uninit fp).m_listDeviceInfo index with
      | none => rfl
      | some r => simp [(hall r (qlistAt_mem _ _ _ hq)).1]
    · rfl
  · unfold DMemoryDevice.model
    split
    · cases hq : qlistAt (DMemoryDevicePrivate.new root uninit fp).m_listDeviceInfo index with
      | none => rfl
      | some r => simp [(hall r (qlistAt_mem _ _ _ hq)).2.1]
    · rfl

/-- The record of the Micron module in the inventory of the example tree, and `vendor(2)`. -/
theorem denormalized_fields_agree_witness :
    buildEntry exampleMicron
        ∈ (DMemoryDevicePrivate.new exampleTree zeroLocals none).m_listDeviceInfo
    ∧ (buildEntry exampleMicron).vendorName
        = (buildEntry exampleMicron).deviceInfoLstMap.value "Vendor"
    ∧ (buildEntry exampleMicron).deviceInfoLstMap.value "Vendor" = "Micron"
    ∧ DMemoryDevice.vendor (DMemoryDevicePrivate.new exampleTree zeroLocals none) 2
        = (if (2 : Int) < DMemoryDevice.count (DMemoryDevicePrivate.new exampleTree zeroLocals none)
          then
            (qlistAt (DMemoryDevicePrivate.new exampleTree zeroLocals none).m_listDeviceInfo 2).map
              (fun r => r.deviceInfoLstMap.value "Vendor")
          else some "") :=
  ⟨List.mem_iff_get?.mpr ⟨2, rfl⟩,
    (denormalized_fields_agree exampleTree zeroLocals none (buildEntry exampleMicron)
      (List.mem_iff_get?.mpr ⟨2, rfl⟩) 2).1,
    by decide,
    (denormalized_fields_agree exampleTree zeroLocals none (buildEntry exampleMicron)
      (List.mem_iff_get?.mpr ⟨2, rfl⟩) 2).2.2.2.1⟩

/-- C12: `totalWidth(index)` and `dataWidth(index)` return the empty string for every inventory
and every index, negative and out-of-range ones included. -/
theorem widths_empty (d : DMemoryDevicePrivate) (index : Int) :
    DMemoryDevice.totalWidth d index = some "" ∧ DMemoryDevice.dataWidth d index = some "" :=
  ⟨rfl, rfl⟩

/-- C16 (the code at a negative index): no record has a `speed` key, and `speed(index)` returns
the empty string at every index from `0` on, in range or not; at index `-1` the test
`index < count()` passes and the list is indexed at `-1`, which fails the range assertion of
`QList::operator[]`, so no empty string is returned. -/
theorem speed_lookup (root : hwNode) (uninit : MemLocals) (fp : Option ProcFile) (n : Nat)
    (node : hwNode) :
    (buildEntry node).deviceInfoLstMap.contains "speed" = false
    ∧ DMemoryDevice.speed (DMemoryDevicePrivate.new root uninit fp) (n : Int) = some ""
    ∧ DMemoryDevice.speed (DMemoryDevicePrivate.new root uninit fp) (-1) = none := by
  refine ⟨?_, ?_, ?_⟩
  · rw [QMap.contains, buildEntry_keys_eq]
    by_cases h1 : node.getBusInfo = "" <;> by_cases h2 : 0 < node.getSize <;>
      simp [h1, h2]
  · by_cases h : (n : Int) < DMemoryDevice.count (DMemoryDevicePrivate.new root uninit fp)
    · have hq := qlistAt_new root uninit fp (n : Int) (Int.natCast_nonneg n) h
      simp only [DMemoryDevice.speed, h, if_true, hq, Option.map_map]
      have hlen : (n : Int).toNat < (memoryNodes root).length := by
        have h2 := h
        simp only [DMemoryDevice.count, new_list, List.length_map] at h2
        omega
      rw [List.get?_eq_getElem?, List.getElem?_eq_getElem hlen]
      simp [buildEntry_value_speed]
    · simp [DMemoryDevice.speed, h]
  · have h : (-1 : Int) < DMemoryDevice.count (DMemoryDevicePrivate.new root uninit fp) :=
      lt_of_lt_of_le (by decide) (count_nonneg _)
    have hq : qlistAt (DMemoryDevicePrivate.new root uninit fp).m_listDeviceInfo (-1) = none :=
      qlistAt_negative _ _ (by decide)
    simp [DMemoryDevice.speed, h, hq]

/-- C17: the attribute-name list of the record built for a node is `SysFs_PATH` (only when the
bus info is not empty), `Description`, `sysID`, `Vendor`, `Name`, `size` (only when the size is
greater than zero), in that order and without duplicates; every name of the list is a key of the
attribute map of the record, and `serial`, `type` and `MemAvailable` are not in the list. -/
theorem buildEntry_attribute_list (node : hwNode) :
    (buildEntry node).deviceBaseAttrisLst
      = (if node.getBusInfo ≠ "" then ["SysFs_PATH"] else [])
        ++ ["Description", "sysID", "Vendor", "Name"]
        ++ (if 0 < node.getSize then ["size"] else [])
    ∧ (buildEntry node).deviceBaseAttrisLst.Nodup
    ∧ (buildEntry node).deviceBaseAttrisLst ⊆ (buildEntry node).deviceInfoLstMap.keys
    ∧ "serial" ∉ (buildEntry node).deviceBaseAttrisLst
    ∧ "type" ∉ (buildEntry node).deviceBaseAttrisLst
    ∧ "MemAvailable" ∉ (buildEntry node).deviceBaseAttrisLst
    ∧ "serial" ∈ (buildEntry node).deviceInfoLstMap.keys
    ∧ "type" ∈ (buildEntry node).deviceInfoLstMap.keys
    ∧ "MemAvailable" ∈ (buildEntry node).deviceInfoLstMap.keys := by
  refine ⟨buildEntry_attris_eq node, ?_⟩
  rw [buildEntry_attris_eq, buildEntry_keys_eq]
  by_cases h1 : node.getBusInfo = "" <;> by_cases h2 : 0 < node.getSize <;>
    simp only [h1, h2, if_true, if_false, ne_eq, not_true_eq_false, not_false_eq_true] <;>
    decide

/-- The attribute-name lists of the two modules of the example tree. -/
theorem buildEntry_attribute_list_witness :
    (buildEntry exampleSamsung).deviceBaseAttrisLst
      = ["Description", "sysID", "Vendor", "Name", "size"]
    ∧ (buildEntry exampleMicron).deviceBaseAttrisLst
      = ["SysFs_PATH", "Description", "sysID", "Vendor", "Name"]
    ∧ (buildEntry exampleMicron).deviceBaseAttrisLst
      ⊆ (buildEntry exampleMicron).deviceInfoLstMap.keys :=
  ⟨(buildEntry_attribute_list exampleSamsung).1, (buildEntry_attribute_list exampleMicron).1,
    (buildEntry_attribute_list exampleMicron).2.2.1⟩

/-! ## Two constructions; repeated labels -/

/-- C15 (the code on a repeated label): with the two lines `MemAvailable: 1 kB` and
`MemAvailable: 2 kB`, both lines are converted without a warning and both values are stored
through the content of `mem_avail_kb`, which is never assigned: `available()` returns the string
of what the local held at entry, `0` for zeroed locals and `7` for the stale ones, not `2`. -/
theorem repeated_label_counters :
    DMemoryDevice.available
        (DMemoryDevicePrivate.new exampleTree zeroLocals (some fileTwoAvailable)) = "0"
    ∧ DMemoryDevice.available
        (DMemoryDevicePrivate.new exampleTree staleLocals (some fileTwoAvailable)) = "7"
    ∧ (addMemInfoScan zeroLocals (some fileTwoAvailable)).warnings = []
    ∧ (addMemInfoScan zeroLocals (some fileTwoAvailable)).stores = [(0, 1), (0, 2)]
    ∧ fgetsLines fileTwoAvailable.content
        = ["MemAvailable: 1 kB\n".toList, "MemAvailable: 2 kB\n".toList] := by
  refine ⟨by decide, by decide, by decide, by decide, by decide⟩

/-! ## The chain of branches: at most one branch per line -/

/-- The chain of the source is the chain over `branchTable`. -/
theorem processLine_eq_table (st : ScanState) (line : List Char) :
    processLine st line = processTable branchTable st line := rfl

theorem branchTable_labels :
    ∀ e ∈ branchTable, e.label ∈ labels ∧ e.len = e.label.length := by decide

theorem branchTable_label_inj :
    ∀ e ∈ branchTable, ∀ e' ∈ branchTable, e.label = e'.label → e = e' := by decide

/-- No label is the beginning of another label. -/
theorem labels_no_common_start :
    ∀ l1 ∈ labels, ∀ l2 ∈ labels, l1.toList <+: l2.toList → l1 = l2 := by decide

theorem branch_test_iff (e : Branch) (he : e ∈ branchTable) (line : List Char) :
    strncmpEq line e.label.toList e.len = true ↔ StartsWith e.label line := by
  obtain ⟨hl, hlen⟩ := branchTable_labels e he
  rw [hlen]
  exact strncmpEq_label e.label hl line

/-- A line starts with at most one of the fourteen labels. -/
theorem label_unique (line : List Char) (l1 l2 : String) (h1 : l1 ∈ labels) (h2 : l2 ∈ labels)
    (s1 : StartsWith l1 line) (s2 : StartsWith l2 line) : l1 = l2 := by
  unfold StartsWith at s1 s2
  rcases Nat.le_total l1.toList.length l2.toList.length with hle | hle
  · exact labels_no_common_start l1 h1 l2 h2 (List.prefix_of_prefix_length_le s1 s2 hle)
  · exact (labels_no_common_start l2 h2 l1 h1 (List.prefix_of_prefix_length_le s2 s1 hle)).symm

theorem processTable_none (t : List Branch) (st : ScanState) (line : List Char)
    (h : ∀ e ∈ t, strncmpEq line e.label.toList e.len = false) :
    processTable t st line = st := by
  induction t with
  | nil => rfl
  | cons x t ih =>
    rw [processTable, h x (List.mem_cons_self _ _)]
    exact ih (fun e he => h e (List.mem_cons_of_mem _ he))

theorem processTable_unique (t : List Branch) (st : ScanState) (line : List Char) (e : Branch)
    (he : e ∈ t) (hm : strncmpEq line e.label.toList e.len = true)
    (hex : ∀ x ∈ t, strncmpEq line x.label.toList x.len = true → x = e) :
    processTable t st line = scanField st line e.len (st.vars.get e.counter) e.name := by
  induction t with
  | nil => simp at he
  | cons x t ih =>
    rw [processTable]
    by_cases hx : strncmpEq line x.label.toList x.len = true
    · rw [if_pos hx, hex x (List.mem_cons_self _ _) hx]
    · rw [if_neg hx]
      have het : e ∈ t := by
        rcases List.mem_cons.mp he with heq | het
        · rw [heq] at hm; exact absurd hm hx
        · exact het
      exact ih het (fun y hy => hex y (List.mem_cons_of_mem _ hy))

/-- Whatever the order in which the fourteen branches are chained, a line that starts with the
label of a branch runs that branch, and a line that starts with no label runs none. -/
theorem processTable_perm (t : List Branch) (hp : t.Perm branchTable) (st : ScanState)
    (line : List Char) :
    (∀ e ∈ branchTable, StartsWith e.label line →
        processTable t st line = scanField st line e.len (st.vars.get e.counter) e.name)
    ∧ ((∀ e ∈ branchTable, ¬ StartsWith e.label line) → processTable t st line = st) := by
  constructor
  · intro e he hs
    refine processTable_unique t st line e (hp.mem_iff.mpr he)
      ((branch_test_iff e he line).mpr hs) ?_
    intro x hx hxm
    have hxb : x ∈ branchTable := hp.mem_iff.mp hx
    have hxs := (branch_test_iff x hxb line).mp hxm
    exact branchTable_label_inj x hxb e he
      (label_unique line x.label e.label (branchTable_labels x hxb).1
        (branchTable_labels e he).1 hxs hs)
  · intro hno
    refine processTable_none t st line ?_
    intro x hx
    have hxb : x ∈ branchTable := hp.mem_iff.mp hx
    have h := (branch_test_iff x hxb line).not.mpr (hno x hxb)
    simpa using h

/-! ## The store through the content of a counter: proofs -/

theorem sscanf_llu_cons (s : List Char) (c : Char) (rest : List Char)
    (h : (cstr s).dropWhile isspace = c :: rest) :
    sscanf_llu s
      = if (if c = '-' ∨ c = '+' then rest else c :: rest).takeWhile Char.isDigit = [] then
          (0, none)
        else
          (1, some (strtoull (decide (c = '-'))
            ((if c = '-' ∨ c = '+' then rest else c :: rest).takeWhile Char.isDigit))) := by
  unfold sscanf_llu
  rw [h]

theorem sscanf_llu_nil (s : List Char) (h : (cstr s).dropWhile isspace = []) :
    sscanf_llu s = (-1, none) := by
  unfold sscanf_llu
  rw [h]

theorem sscanf_llu_unconverted (s : List Char) (h : (sscanf_llu s).1 ≠ 1) :
    (sscanf_llu s).2 = none := by
  cases hdw : (cstr s).dropWhile isspace with
  | nil => rw [sscanf_llu_nil s hdw]
  | cons c rest =>
    rw [sscanf_llu_cons s c rest hdw] at h ⊢
    generalize (if c = '-' ∨ c = '+' then rest else c :: rest) = body at h ⊢
    by_cases hd : body.takeWhile Char.isDigit = []
    · rw [if_pos hd]
    · rw [if_neg hd] at h
      exact absurd rfl h

theorem sscanf_llu_converted (s : List Char) (h : (sscanf_llu s).1 = 1) :
    ∃ v, (sscanf_llu s).2 = some v := by
  cases hdw : (cstr s).dropWhile isspace with
  | nil =>
    rw [sscanf_llu_nil s hdw] at h
    exact absurd h (by decide)
  | cons c rest =>
    rw [sscanf_llu_cons s c rest hdw] at h ⊢
    generalize (if c = '-' ∨ c = '+' then rest else c :: rest) = body at h ⊢
    by_cases hd : body.takeWhile Char.isDigit = []
    · rw [if_pos hd] at h
      exact absurd h (by decide)
    · rw [if_neg hd]
      exact ⟨_, rfl⟩

/-- A labelled line on which `sscanf` converts nothing stores nothing: `nr` is set, one warning
is logged, and everything else is as before. -/
theorem scanFieldAt_unconverted (mem : Nat → StoreTarget) (st : ScanState) (line : List Char)
    (skip : Nat) (c : Counter) (name : String) (h : (sscanf_llu (line.drop skip)).1 ≠ 1) :
    scanFieldAt mem st line skip c name
      = some { st with
          nr := (sscanf_llu (line.drop skip)).1
          warnings := st.warnings ++ ["parse /proc/meminfo -> " ++ name ++ " failed"] } := by
  have h2 := sscanf_llu_unconverted _ h
  unfold scanFieldAt
  rw [h2]
  simp [scanField, h, h2]

theorem scanFieldAt_vars_congr (mem : Nat → StoreTarget) (st st' : ScanState)
    (line : List Char) (skip : Nat) (c : Counter) (name : String) (h : st.vars = st'.vars) :
    (scanFieldAt mem st line skip c name).map (fun s => s.vars)
      = (scanFieldAt mem st' line skip c name).map (fun s => s.vars) := by
  unfold scanFieldAt
  rw [h]
  cases (sscanf_llu (line.drop skip)).2 with
  | none => simp [scanField_vars, h]
  | some v =>
    cases mem (st'.vars.get c) with
    | counter c' => simp
    | elsewhere => simp [scanField_vars, h]
    | fault => simp

theorem processTableAt_vars_congr (mem : Nat → StoreTarget) (t : List Branch)
    (st st' : ScanState) (line : List Char) (h : st.vars = st'.vars) :
    (processTableAt mem t st line).map (fun s => s.vars)
      = (processTableAt mem t st' line).map (fun s => s.vars) := by
  induction t with
  | nil => simp [processTableAt, h]
  | cons e t ih =>
    unfold processTableAt
    by_cases hx : strncmpEq line e.label.toList e.len = true
    · rw [if_pos hx, if_pos hx]
      exact scanFieldAt_vars_congr mem st st' line e.len e.counter e.name h
    · rw [if_neg hx, if_neg hx]
      exact ih

/-- The counters at the end of the scan, and whether it completes, are decided by the counters
at its start and the lines alone. -/
theorem scanLinesAt_vars_congr (mem : Nat → StoreTarget) (L : List (List Char))
    (st st' : ScanState) (h : st.vars = st'.vars) :
    (scanLinesAt mem st L).map (fun s => s.vars)
      = (scanLinesAt mem st' L).map (fun s => s.vars) := by
  induction L generalizing st st' with
  | nil => simp [scanLinesAt, h]
  | cons l L ih =>
    have hstep := processTableAt_vars_congr mem branchTable st st' l h
    unfold scanLinesAt processLineAt
    cases h1 : processTableAt mem branchTable st l with
    | none =>
      cases h2 : processTableAt mem branchTable st' l with
      | none => rfl
      | some s2 => rw [h1, h2] at hstep; simp at hstep
    | some s1 =>
      cases h2 : processTableAt mem branchTable st' l with
      | none => rw [h1, h2] at hstep; simp at hstep
      | some s2 =>
        rw [h1, h2] at hstep
        simp only [Option.map_some', Option.some.injEq] at hstep
        exact ih s1 s2 hstep

theorem scanLinesAt_append (mem : Nat → StoreTarget) (A B : List (List Char))
    (st : ScanState) :
    scanLinesAt mem st (A ++ B) = (scanLinesAt mem st A).bind (fun s => scanLinesAt mem s B) := by
  induction A generalizing st with
  | nil => simp [scanLinesAt]
  | cons l A ih =>
    simp only [List.cons_append, scanLinesAt]
    cases processLineAt mem st l with
    | none => rfl
    | some s1 => exact ih s1

theorem processTableAt_none (mem : Nat → StoreTarget) (t : List Branch) (st : ScanState)
    (line : List Char) (h : ∀ e ∈ t, strncmpEq line e.label.toList e.len = false) :
    processTableAt mem t st line = some st := by
  induction t with
  | nil => rfl
  | cons x t ih =>
    rw [processTableAt, h x (List.mem_cons_self _ _)]
    exact ih (fun e he => h e (List.mem_cons_of_mem _ he))

theorem processTableAt_unique (mem : Nat → StoreTarget) (t : List Branch) (st : ScanState)
    (line : List Char) (e : Branch) (he : e ∈ t)
    (hm : strncmpEq line e.label.toList e.len = true)
    (hex : ∀ x ∈ t, strncmpEq line x.label.toList x.len = true → x = e) :
    processTableAt mem t st line = scanFieldAt mem st line e.len e.counter e.name := by
  induction t with
  | nil => simp at he
  | cons x t ih =>
    rw [processTableAt]
    by_cases hx : strncmpEq line x.label.toList x.len = true
    · rw [if_pos hx, hex x (List.mem_cons_self _ _) hx]
    · rw [if_neg hx]
      have het : e ∈ t := by
        rcases List.mem_cons.mp he with heq | het
        · rw [heq] at hm; exact absurd hm hx
        · exact het
      exact ih het (fun y hy => hex y (List.mem_cons_of_mem _ hy))

/-- Whatever the order in which the fourteen branches are chained, a line that starts with the
label of a branch runs that branch with its store, and a line that starts with no label runs
none. -/
theorem processTableAt_perm (mem : Nat → StoreTarget) (t : List Branch)
    (hp : t.Perm branchTable) (st : ScanState) (line : List Char) :
    (∀ e ∈ branchTable, StartsWith e.label line →
        processTableAt mem t st line = scanFieldAt mem st line e.len e.counter e.name)
    ∧ ((∀ e ∈ branchTable, ¬ StartsWith e.label line) →
        processTableAt mem t st line = some st) := by
  constructor
  · intro e he hs
    refine processTableAt_unique mem t st line e (hp.mem_iff.mpr he)
      ((branch_test_iff e he line).mpr hs) ?_
    intro x hx hxm
    have hxb : x ∈ branchTable := hp.mem_iff.mp hx
    have hxs := (branch_test_iff x hxb line).mp hxm
    exact branchTable_label_inj x hxb e he
      (label_unique line x.label e.label (branchTable_labels x hxb).1
        (branchTable_labels e he).1 hxs hs)
  · intro hno
    refine processTableAt_none mem t st line ?_
    intro x hx
    have hxb : x ∈ branchTable := hp.mem_iff.mp hx
    have h := (branch_test_iff x hxb line).not.mpr (hno x hxb)
    simpa using h

theorem processLineAt_branch (mem : Nat → StoreTarget) (st : ScanState) (line : List Char)
    (e : Branch) (he : e ∈ branchTable) (hs : StartsWith e.label line) :
    processLineAt mem st line = scanFieldAt mem st line e.len e.counter e.name :=
  (processTableAt_perm mem branchTable (List.Perm.refl _) st line).1 e he hs

/-- When every store lands outside the counters, the loop body is `processLine`. -/
theorem processTableAt_elsewhere (t : List Branch) (st : ScanState) (line : List Char) :
    processTableAt (fun _ => StoreTarget.elsewhere) t st line = some (processTable t st line) := by
  induction t with
  | nil => rfl
  | cons e t ih =>
    unfold processTableAt processTable
    by_cases hx : strncmpEq line e.label.toList e.len = true
    · rw [if_pos hx, if_pos hx]
      unfold scanFieldAt
      cases (sscanf_llu (line.drop e.len)).2 <;> rfl
    · rw [if_neg hx, if_neg hx]
      exact ih

theorem scanLinesAt_elsewhere (L : List (List Char)) (st : ScanState) :
    scanLinesAt (fun _ => StoreTarget.elsewhere) st L = some (L.foldl processLine st) := by
  induction L generalizing st with
  | nil => rfl
  | cons l L ih =>
    unfold scanLinesAt processLineAt
    rw [processTableAt_elsewhere, ← processLine_eq_table]
    exact ih _

/-- When every store lands outside the counters, the members are those of `addMemInfo`. -/
theorem addMemInfoAt_elsewhere (uninit : MemLocals) (fp : Option ProcFile) :
    addMemInfoAt (fun _ => StoreTarget.elsewhere) uninit fp = some (addMemInfo uninit fp) := by
  cases fp with
  | none => rfl
  | some f =>
    simp only [addMemInfoAt, addMemInfoScanAt, scanLinesAt_elsewhere, Option.map_some',
      addMemInfo, addMemInfoScan, whileFgets_foldl, scanStart]

theorem addMemInfoScanAt_vars (mem : Nat → StoreTarget) (uninit : MemLocals) (f : ProcFile) :
    (addMemInfoScanAt mem uninit (some f)).map (fun s => s.vars)
      = (scanLinesAt mem (scanStart uninit) (fgetsLines f.content)).map (fun s => s.vars) := by
  simp only [addMemInfoScanAt]
  cases scanLinesAt mem (scanStart uninit) (fgetsLines f.content) with
  | none => rfl
  | some s => cases hr : f.readError <;> simp [hr]

theorem addMemInfoAt_eq_of_vars (mem : Nat → StoreTarget) (uninit : MemLocals)
    (f1 f2 : ProcFile)
    (h : (scanLinesAt mem (scanStart uninit) (fgetsLines f1.content)).map (fun s => s.vars)
      = (scanLinesAt mem (scanStart uninit) (fgetsLines f2.content)).map (fun s => s.vars)) :
    addMemInfoAt mem uninit (some f1) = addMemInfoAt mem uninit (some f2) := by
  have e1 : addMemInfoAt mem uninit (some f1)
      = ((addMemInfoScanAt mem uninit (some f1)).map (fun s => s.vars)).map numberAll := by
    simp [addMemInfoAt, Option.map_map, Function.comp_def]
  have e2 : addMemInfoAt mem uninit (some f2)
      = ((addMemInfoScanAt mem uninit (some f2)).map (fun s => s.vars)).map numberAll := by
    simp [addMemInfoAt, Option.map_map, Function.comp_def]
  rw [e1, e2, addMemInfoScanAt_vars, addMemInfoScanAt_vars, h]

/-! ## Labelled lines -/

/-- C7 (the claim on a signed number): the line `Slab: -5` starts with a label and what follows
does not begin with an unsigned decimal integer, yet `sscanf` converts it (return value `1`,
value `2^64 - 5`) and stores it through the content of `slab_kb`. When that content is the
address of `dirty_kb`, the file with the line gives `dirty()` the converted value and the file
without it gives the stale one; when it is zero, the store faults and the file with the line
gives no inventory at all. -/
theorem signed_line_converted :
    MalformedLine "Slab: -5\n".toList
    ∧ fgetsLines fileSignedSlab.content = [] ++ ["Slab: -5\n".toList] ++ []
    ∧ fgetsLines fileEmpty.content = [] ++ []
    ∧ sscanf_llu ("Slab: -5\n".toList.drop 5) = (1, some 18446744073709551611)
    ∧ (DMemoryDevicePrivate.newAt exampleMem exampleTree aliasLocals (some fileSignedSlab)).map
        DMemoryDevice.dirty = some "18446744073709551611"
    ∧ (DMemoryDevicePrivate.newAt exampleMem exampleTree aliasLocals (some fileEmpty)).map
        DMemoryDevice.dirty = some "140737488347104"
    ∧ (DMemoryDevicePrivate.newAt exampleMem exampleTree aliasLocals (some fileSignedSlab)).map
        DMemoryDevice.counterResults
      ≠ (DMemoryDevicePrivate.newAt exampleMem exampleTree aliasLocals (some fileEmpty)).map
        DMemoryDevice.counterResults
    ∧ (DMemoryDevicePrivate.newAt exampleMem exampleTree zeroLocals (some fileSignedSlab)).map
        DMemoryDevice.counterResults = none
    ∧ (DMemoryDevicePrivate.newAt exampleMem exampleTree zeroLocals (some fileEmpty)).map
        DMemoryDevice.counterResults
      = some ["0", "0", "0", "0", "0", "0", "0", "0", "0", "0", "0", "0"] := by
  refine ⟨⟨"Slab:", by decide, by decide, by decide⟩, by decide, by decide, by decide,
    by decide, by decide, by decide, by decide, by decide⟩

/-- C7 (amended): a line that starts with a label and on which `sscanf` converts no number (its
return value is not `1`) leaves every counter as it was before the line, logs one warning and
does not stop the scan: the lines after it are scanned from the same counters, and the file with
the line gives the same inventory, or the same failure to construct one, as the file without
it, whatever the stores of the other lines do. -/
theorem unconverted_line_skipped (mem : Nat → StoreTarget) (root : hwNode)
    (uninit : MemLocals) (f1 f2 : ProcFile) (L1 L2 : List (List Char)) (b : List Char)
    (e : Branch)
    (h1 : fgetsLines f1.content = L1 ++ [b] ++ L2)
    (h2 : fgetsLines f2.content = L1 ++ L2)
    (he : e ∈ branchTable) (hb : StartsWith e.label b)
    (hn : (sscanf_llu (b.drop e.len)).1 ≠ 1) :
    DMemoryDevicePrivate.newAt mem root uninit (some f1)
      = DMemoryDevicePrivate.newAt mem root uninit (some f2)
    ∧ (DMemoryDevicePrivate.newAt mem root uninit (some f1)).map DMemoryDevice.counterResults
      = (DMemoryDevicePrivate.newAt mem root uninit (some f2)).map DMemoryDevice.counterResults
    ∧ (∀ st : ScanState, processLineAt mem st b
        = some { st with
            nr := (sscanf_llu (b.drop e.len)).1
            warnings := st.warnings ++ ["parse /proc/meminfo -> " ++ e.name ++ " failed"] })
    ∧ scanLinesAt mem (scanStart uninit) (fgetsLines f1.content)
        = (scanLinesAt mem (scanStart uninit) L1).bind (fun s1 =>
            scanLinesAt mem
              { s1 with
                nr := (sscanf_llu (b.drop e.len)).1
                warnings := s1.warnings ++ ["parse /proc/meminfo -> " ++ e.name ++ " failed"] }
              L2) := by
  have hline : ∀ st : ScanState, processLineAt mem st b
      = some { st with
          nr := (sscanf_llu (b.drop e.len)).1
          warnings := st.warnings ++ ["parse /proc/meminfo -> " ++ e.name ++ " failed"] } := by
    intro st
    rw [processLineAt_branch mem st b e he hb]
    exact scanFieldAt_unconverted mem st b e.len e.counter e.name hn
  have hscan : scanLinesAt mem (scanStart uninit) (fgetsLines f1.content)
      = (scanLinesAt mem (scanStart uninit) L1).bind (fun s1 =>
          scanLinesAt mem
            { s1 with
              nr := (sscanf_llu (b.drop e.len)).1
              warnings := s1.warnings ++ ["parse /proc/meminfo -> " ++ e.name ++ " failed"] }
            L2) := by
    rw [h1, List.append_assoc, scanLinesAt_append]
    congr 1
    funext s1
    simp only [List.singleton_append, scanLinesAt, hline]
    rfl
  have hvars : (scanLinesAt mem (scanStart uninit) (fgetsLines f1.content)).map
        (fun s => s.vars)
      = (scanLinesAt mem (scanStart uninit) (fgetsLines f2.content)).map (fun s => s.vars) := by
    rw [hscan, h2, scanLinesAt_append]
    cases scanLinesAt mem (scanStart uninit) L1 with
    | none => rfl
    | some s1 =>
      simp only [Option.some_bind]
      exact scanLinesAt_vars_congr mem L2 _ s1 rfl
  have hmem := addMemInfoAt_eq_of_vars mem uninit f1 f2 hvars
  have hnew : DMemoryDevicePrivate.newAt mem root uninit (some f1)
      = DMemoryDevicePrivate.newAt mem root uninit (some f2) := by
    unfold DMemoryDevicePrivate.newAt
    rw [hmem]
  exact ⟨hnew, by rw [hnew], hline, hscan⟩

/-- The line `Slab: x` between a `MemAvailable:` line, whose value lands in `buffers_kb`, and a
`Dirty:` line, whose value lands in `mapped_kb`. -/
theorem unconverted_line_skipped_witness :
    sscanf_llu ("Slab: x\n".toList.drop 5) = (0, none)
    ∧ sscanf_llu ("Slab:\n".toList.drop 5) = (-1, none)
    ∧ sscanf_llu ("Slab: - 5\n".toList.drop 5) = (0, none)
    ∧ (sscanf_llu ("Slab: x\n".toList.drop 5)).1 ≠ 1
    ∧ (DMemoryDevicePrivate.newAt exampleMem exampleTree aliasLocals
          (some fileMalformedSlab)).map DMemoryDevice.counterResults
      = (DMemoryDevicePrivate.newAt exampleMem exampleTree aliasLocals
          (some fileNoSlab)).map DMemoryDevice.counterResults
    ∧ (DMemoryDevicePrivate.newAt exampleMem exampleTree aliasLocals
          (some fileNoSlab)).map DMemoryDevice.counterResults
      = some ["140737488347024", "8", "7", "7", "7", "7", "7", "7", "140737488347032",
          "140737488347096", "140737488347104", "3"] :=
  ⟨by decide, by decide, by decide, by decide,
    (unconverted_line_skipped exampleMem exampleTree aliasLocals fileMalformedSlab fileNoSlab
      ["MemAvailable: 8 kB\n".toList] ["Dirty: 3 kB\n".toList] "Slab: x\n".toList
      ⟨"Slab:", 5, Counter.slab_kb, "Slab"⟩
      (by decide) (by decide) (by decide) (by decide) (by decide)).2.1,
    by decide⟩

/-- C9 (the code on a `MemTotal:` line): the file with the single line `MemTotal: 2000000 kB`
and the empty file differ only in a line that starts with `MemTotal:`. The line takes the first
branch, which stores the converted value through the content of `mem_total_kb`: when that
content is the address of `swap_total_kb`, `swapSize()` returns `2000000` with the line and the
stale `7` without it; when it is zero, the store faults and the file with the line gives no
inventory. The twelve members themselves are computed without reading `mem_total_kb`. -/
theorem memTotal_line_surfaces :
    (fgetsLines fileOnlyMemTotal.content).filter notMemTotal
      = (fgetsLines fileEmpty.content).filter notMemTotal
    ∧ (DMemoryDevicePrivate.newAt exampleMem exampleTree aliasLocals
          (some fileOnlyMemTotal)).map DMemoryDevice.swapSize = some "2000000"
    ∧ (DMemoryDevicePrivate.newAt exampleMem exampleTree aliasLocals
          (some fileEmpty)).map DMemoryDevice.swapSize = some "7"
    ∧ (DMemoryDevicePrivate.newAt exampleMem exampleTree aliasLocals
          (some fileOnlyMemTotal)).map DMemoryDevice.counterResults
      ≠ (DMemoryDevicePrivate.newAt exampleMem exampleTree aliasLocals
          (some fileEmpty)).map DMemoryDevice.counterResults
    ∧ (DMemoryDevicePrivate.newAt exampleMem exampleTree zeroLocals
          (some fileOnlyMemTotal)).map DMemoryDevice.counterResults = none
    ∧ (DMemoryDevicePrivate.newAt exampleMem exampleTree zeroLocals
          (some fileEmpty)).map DMemoryDevice.counterResults
      = some ["0", "0", "0", "0", "0", "0", "0", "0", "0", "0", "0", "0"]
    ∧ (∀ (mem : Nat → StoreTarget) (st : ScanState) (line : List Char),
        StartsWith "MemTotal:" line →
        processLineAt mem st line
          = scanFieldAt mem st line 9 Counter.mem_total_kb "MemTotal")
    ∧ (∀ (v : MemLocals) (n : Nat), numberAll { v with mem_total_kb := n } = numberAll v) := by
  refine ⟨by decide, by decide, by decide, by decide, by decide, by decide, ?_, fun v n => rfl⟩
  intro mem st line hl
  exact processLineAt_branch mem st line ⟨"MemTotal:", 9, Counter.mem_total_kb, "MemTotal"⟩
    (by decide) hl

/-- C14 (the code on a `SwapCached:` line): no label is the beginning of another, a line starts
with the label of at most one branch, and the chain computes the same loop body in whatever
order the fourteen branches are taken. But the branch of a line stores the converted value
through the content of its counter, so a line can change the accessor of another counter: when
`swap_cached_kb` holds the address of `cached_kb`, `cached()` returns `5` for the file with the
single line `SwapCached: 5 kB` and the stale `7` for the empty file; when it holds zero, the
store faults and the file with the line gives no inventory. -/
theorem label_branches_and_stores :
    (∀ l1 ∈ labels, ∀ l2 ∈ labels, l1.toList <+: l2.toList → l1 = l2)
    ∧ (∀ (line : List Char), ∀ x ∈ branchTable, ∀ y ∈ branchTable,
        StartsWith x.label line → StartsWith y.label line → x = y)
    ∧ (∀ (mem : Nat → StoreTarget) (t : List Branch), t.Perm branchTable →
        ∀ (st : ScanState) (line : List Char),
          processTableAt mem t st line = processLineAt mem st line)
    ∧ (∀ (line : List Char), StartsWith "SwapCached:" line → ¬ StartsWith "Cached:" line)
    ∧ (DMemoryDevicePrivate.newAt exampleMem exampleTree aliasLocals
          (some fileOnlySwapCached)).map DMemoryDevice.cached = some "5"
    ∧ (DMemoryDevicePrivate.newAt exampleMem exampleTree aliasLocals
          (some fileEmpty)).map DMemoryDevice.cached = some "7"
    ∧ (DMemoryDevicePrivate.newAt exampleMem exampleTree zeroLocals
          (some fileOnlySwapCached)).map DMemoryDevice.counterResults = none
    ∧ (DMemoryDevicePrivate.newAt exampleMem exampleTree zeroLocals
          (some fileEmpty)).map DMemoryDevice.counterResults
      = some ["0", "0", "0", "0", "0", "0", "0", "0", "0", "0", "0", "0"] := by
  refine ⟨labels_no_common_start, ?_, ?_, ?_, by decide, by decide, by decide, by decide⟩
  · intro line x hx y hy hxs hys
    exact branchTable_label_inj x hx y hy
      (label_unique line x.label y.label (branchTable_labels x hx).1 (branchTable_labels y hy).1
        hxs hys)
  · intro mem t hp st line
    unfold processLineAt
    by_cases hex : ∃ x ∈ branchTable, StartsWith x.label line
    · obtain ⟨x, hx, hxs⟩ := hex
      rw [(processTableAt_perm mem t hp st line).1 x hx hxs,
        (processTableAt_perm mem branchTable (List.Perm.refl _) st line).1 x hx hxs]
    · have hno : ∀ x ∈ branchTable, ¬ StartsWith x.label line :=
        fun x hx hxs => hex ⟨x, hx, hxs⟩
      rw [(processTableAt_perm mem t hp st line).2 hno,
        (processTableAt_perm mem branchTable (List.Perm.refl _) st line).2 hno]
  · intro line h1 h2
    have := label_unique line "SwapCached:" "Cached:" (by decide) (by decide) h1 h2
    exact absurd this (by decide)

end Dtk
